import Mathlib

/-!
The editing core of bingchillin (`src/main.c`).

A shallow embedding of the text-editing core of the editor (buffer, line index,
cursor, selection and the operations on them) together with theorems about it.

Conventions of the embedding.

* A `char` is a natural number (its byte value); `'\n'` is `10`, `' '` is `32`
  and `'\0'` is `0`.
* The `Buffer` dynamic array is the list of its first `count` bytes, so
  `e->buffer.count` is `e.buffer.length`; likewise `Lines` is a list of `Line`.
  Bytes of the allocation beyond `count` are not part of the state; the one
  block that reads them, the counting loop of the enter block, takes them as
  the argument `slack`.
* `size_t` offsets are natural numbers: the embedding covers executions in
  which every offset fits `size_t`.  Where the source subtracts two `size_t`
  values that need not be ordered (the column of the cursor, the page-up
  argument, `editor_selection_delete`, `editor_copy`) the subtraction is
  `size_sub`, reduced modulo `2 ^ 64`, and the theorems say which counts they
  take to be `size_t` values.
* The `int` locals that hold offsets and lengths (`start`, `end`, `length`,
  `startingPos`, `spaces`) are integers reduced to 32 bits: `to_int` converts a
  `size_t` to `int`, `wrap_int` reduces the result of an `int` operation, and
  `int_to_size` converts back to `size_t`.  The theorems about these functions
  carry the bound `buffer length < 2^31` under which the conversions are exact.
* The clipboard is outside the state: `editor_copy` and `editor_cut` return the
  text they hand to `SetClipboardText`, `editor_paste` takes the text
  `GetClipboardText` returns.
* Reading `items[i]` outside the array is undefined in C.  The embedding reads
  a zero value there (`getD`), so a statement about such a read speaks of the
  source where the index is valid; a theorem whose proof needs the index to be
  valid carries the hypothesis that makes it so.
* The file name and the notification, which only `editor_load_file` concerns
  here, are kept beside the core state in `Session`; the file system is the
  argument `file` of `editor_load_file`.
* Screen coordinates, fonts, colours, scrolling and the key polling of raylib
  are outside the embedding.
-/

namespace Bingchillin

/-- A `char` of the buffer, as its byte value. -/
abbrev Byte := Nat

/-- The byte `'\n'`. -/
abbrev NEWLINE : Byte := 10

/-- The byte `' '`. -/
abbrev SPACE : Byte := 32

/-- `Line` of main.c: `start` is the offset of the first byte of the line and
`end_` (the field `end`) the offset just after its last byte. -/
structure Line where
  start : Nat
  end_ : Nat
  deriving DecidableEq, Repr, Inhabited

/-- `Selection` of main.c (`exists_` is the field `exists`). -/
structure Selection where
  start : Nat
  end_ : Nat
  exists_ : Bool
  deriving DecidableEq, Repr, Inhabited

/-- `Cursor` of main.c, without the screen coordinates `x` and `y`. -/
structure Cursor where
  pos : Nat
  row : Nat
  col : Nat
  deriving DecidableEq, Repr, Inhabited

/-- `Editor` of main.c, restricted to the state of the editing core. -/
structure Editor where
  c : Cursor
  buffer : List Byte
  lines : List Line
  selection : Selection
  deriving DecidableEq, Repr, Inhabited

/-- Modelled from the spec: `da_append` of dynamic_array.h, which is not among
the sources.  The array grows by one slot holding the appended item
("growable sequence", "increments length"). -/
def da_append {α : Type} (xs : List α) (x : α) : List α := xs ++ [x]

/-- Modelled from the spec: `da_free` of dynamic_array.h, which is not among
the sources.  The line index is rebuilt "from scratch", so freeing leaves an
array of count zero. -/
def da_free {α : Type} (_xs : List α) : List α := []

/-- The libc `memmove` on an array given as a list: the `len` items starting at
`src` are copied to the `len` slots starting at `dest`. -/
def memmove (items : List Byte) (dest src len : Nat) : List Byte :=
  items.take dest ++ ((items.drop src).take len ++ items.drop (dest + len))

/-- The `for` loop of `editor_calculate_lines`: `i` is the loop index (the
offset of the head of the remaining bytes), `line` the local variable `line`
and `lines` the array being filled. -/
def editor_calculate_lines_loop : List Byte → Nat → Line → List Line → Line × List Line
  | [], _, line, lines => (line, lines)
  | ch :: rest, i, line, lines =>
    if ch = NEWLINE then
      let line1 : Line := { line with end_ := i }
      let lines1 := da_append lines line1
      let line2 : Line := { line1 with start := i + 1 }
      editor_calculate_lines_loop rest (i + 1) line2 lines1
    else
      editor_calculate_lines_loop rest (i + 1) line lines

/-- `editor_calculate_lines`: rebuild the line index from the buffer. -/
def editor_calculate_lines (e : Editor) : Editor :=
  let lines0 := da_free e.lines
  let r := editor_calculate_lines_loop e.buffer 0 { start := 0, end_ := 0 } lines0
  { e with lines := da_append r.2 { start := r.1.start, end_ := e.buffer.length } }

/-- The `for` loop of `cursor_get_row`: `i` is the loop index, the list holds
`lines.items[i..]`. -/
def cursor_get_row_loop (pos : Nat) : List Line → Nat → Option Nat
  | [], _ => none
  | line :: rest, i =>
    if pos ≥ line.start ∧ pos ≤ line.end_ then some i
    else cursor_get_row_loop pos rest (i + 1)

/-- `cursor_get_row`: the first line whose closed range holds the cursor, the
last line when there is none.  (The source asserts `lines.count > 0`.) -/
def cursor_get_row (c : Cursor) (lines : List Line) : Nat :=
  match cursor_get_row_loop c.pos lines 0 with
  | some i => i
  | none => lines.length - 1

/-- The `for` loop of `editor_cursor_to_next_word`: the list holds
`buffer.items[i..count)`; the result is the index at which the loop returns,
`none` when it runs to the end. -/
def editor_cursor_to_next_word_loop : List Byte → Nat → Bool → Option Nat
  | [], _, _ => none
  | ch :: rest, i, foundWhitespace =>
    let checkWhitespace : Bool := ch == SPACE || ch == NEWLINE
    let foundWhitespace1 : Bool := if checkWhitespace then true else foundWhitespace
    if foundWhitespace1 && (!checkWhitespace || ch == NEWLINE) then some i
    else editor_cursor_to_next_word_loop rest (i + 1) foundWhitespace1

/-- `editor_cursor_to_next_word`. -/
def editor_cursor_to_next_word (e : Editor) : Editor :=
  match editor_cursor_to_next_word_loop (e.buffer.drop e.c.pos) e.c.pos false with
  | some i => { e with c := { e.c with pos := i } }
  | none =>
    let line := e.lines.getD e.c.row default
    { e with c := { e.c with pos := line.end_ } }

/-- The `for` loop of `editor_cursor_to_prev_word`, counting `i` down to zero
and reading `items[i-1]`. -/
def editor_cursor_to_prev_word_loop (items : List Byte) : Nat → Bool → Option Nat
  | 0, _ => none
  | i + 1, foundWhitespace =>
    let ch := items.getD i 0
    let checkWhitespace : Bool := ch == SPACE || ch == NEWLINE
    let foundWhitespace1 : Bool := if checkWhitespace then true else foundWhitespace
    if foundWhitespace1 && (!checkWhitespace || ch == NEWLINE) then some (i + 1)
    else editor_cursor_to_prev_word_loop items i foundWhitespace1

/-- `editor_cursor_to_prev_word`. -/
def editor_cursor_to_prev_word (e : Editor) : Editor :=
  match editor_cursor_to_prev_word_loop e.buffer e.c.pos false with
  | some i => { e with c := { e.c with pos := i } }
  | none =>
    let line := e.lines.getD e.c.row default
    { e with c := { e.c with pos := line.start } }

/-- `editor_cursor_to_line_number`: the returned flag and the state. -/
def editor_cursor_to_line_number (e : Editor) (lineNumber : Nat) : Bool × Editor :=
  if lineNumber < 1 ∨ lineNumber ≥ e.lines.length then (false, e)
  else
    let lineIndex := lineNumber - 1
    let requiredLine := e.lines.getD lineIndex default
    (true, { e with c := { e.c with pos := requiredLine.start } })

/-- `editor_insert_char_at_cursor`. -/
def editor_insert_char_at_cursor (e : Editor) (ch : Byte) : Editor :=
  let items1 := da_append e.buffer 0
  let len := items1.length - 1 - e.c.pos
  let items2 := memmove items1 (e.c.pos + 1) e.c.pos len
  let items3 := items2.set e.c.pos ch
  editor_calculate_lines
    { e with buffer := items3, c := { e.c with pos := e.c.pos + 1 } }

/-- `editor_remove_char_before_cursor`. -/
def editor_remove_char_before_cursor (e : Editor) : Editor :=
  if e.c.pos = 0 then e
  else
    let len := e.buffer.length - e.c.pos
    let items1 := memmove e.buffer (e.c.pos - 1) e.c.pos len
    editor_calculate_lines
      { e with buffer := items1.take (e.buffer.length - 1),
               c := { e.c with pos := e.c.pos - 1 } }

/-- The modulus of `size_t` arithmetic. -/
abbrev SIZE_MOD : Nat := 2 ^ 64

/-- The `size_t` subtraction `a - b` of two `size_t` values: the difference
reduced modulo `2 ^ 64`. -/
def size_sub (a b : Nat) : Nat := (a + SIZE_MOD - b) % SIZE_MOD

/-- The number of `int` values that are not negative, `INT_MAX + 1 = 2 ^ 31`. -/
abbrev INT_LIMIT : Nat := 2147483648

/-- An integer reduced to the range of `int` (32 bits, two's complement): the
result of an `int` operation, or of a conversion to `int`, whose mathematical
value is `z`. -/
def wrap_int (z : Int) : Int := (z + 2147483648) % 4294967296 - 2147483648

/-- The `int` that a `size_t` value converts to. -/
def to_int (n : Nat) : Int := wrap_int (n : Int)

/-- The `size_t` value that an `int` converts to: its residue modulo `2 ^ 64`.
This is also the index `items + i` points at for an `int` `i`; an index outside
the array is outside the list. -/
def int_to_size (z : Int) : Nat := (z % 18446744073709551616).toNat

/-- `editor_selection_clear`. -/
def editor_selection_clear (e : Editor) : Editor :=
  { e with selection := { start := 0, end_ := 0, exists_ := false } }

/-- `editor_selection_delete`.  The function does not test `exists`.  Its locals
`start` and `end` are `int`: they hold the two selection offsets, in increasing
order, converted to `int`.  `count - end` and `count -= end - start` are
`size_t` operations on the converted `int` values, and the cursor gets `start`
converted back.  The new buffer is the first `count` bytes of the array, bytes
outside the array reading zero. -/
def editor_selection_delete (e : Editor) : Editor :=
  let s := e.selection
  let start : Int := to_int (if s.start ≤ s.end_ then s.start else s.end_)
  let end_ : Int := to_int (if s.start ≤ s.end_ then s.end_ else s.start)
  let src := int_to_size end_
  let dest := int_to_size start
  let len := size_sub e.buffer.length (int_to_size end_)
  let items1 := memmove e.buffer dest src len
  let count1 := size_sub e.buffer.length (int_to_size (wrap_int (end_ - start)))
  let e1 : Editor :=
    { e with c := { e.c with pos := int_to_size start },
             buffer := items1.takeD count1 0 }
  editor_calculate_lines (editor_selection_clear e1)

/-- `editor_select_all`. -/
def editor_select_all (e : Editor) : Editor :=
  let firstLine := e.lines.getD 0 default
  let lastLine := e.lines.getD (e.lines.length - 1) default
  { e with selection := { start := firstLine.start, end_ := lastLine.end_, exists_ := true } }

/-- The character-input block of `editor_update` (Insert-char): an active
selection is deleted, then the character is inserted at the cursor. -/
def editor_update_char (e : Editor) (key : Byte) : Editor :=
  let e1 := if e.selection.exists_ then editor_selection_delete e else e
  editor_insert_char_at_cursor e1 key

/-- The backspace block of `editor_update` (Backspace). -/
def editor_update_backspace (e : Editor) : Editor :=
  if e.selection.exists_ then editor_selection_delete e
  else editor_remove_char_before_cursor e

/-- `cursor_get_col`: `c->pos - currentLine.start`, an unsigned subtraction,
the line being that of the row stored in the cursor. -/
def cursor_get_col (c : Cursor) (lines : List Line) : Nat :=
  let currentLine := lines.getD c.row default
  size_sub c.pos currentLine.start

/-- `editor_cursor_update`, without the screen coordinates: the row is derived
from the cursor offset, then the column from the offset and that row. -/
def editor_cursor_update (e : Editor) : Editor :=
  let c1 : Cursor := { e.c with row := cursor_get_row e.c e.lines }
  let c2 : Cursor := { c1 with col := cursor_get_col c1 e.lines }
  { e with c := c2 }

/-- `editor_cursor_down`. -/
def editor_cursor_down (e : Editor) : Editor :=
  if e.c.row + 1 > e.lines.length - 1 then e
  else
    let nextLine := e.lines.getD (e.c.row + 1) default
    let nextLineSize := nextLine.end_ - nextLine.start
    if nextLineSize ≥ e.c.col then
      { e with c := { e.c with pos := nextLine.start + e.c.col } }
    else
      { e with c := { e.c with pos := nextLine.end_ } }

/-- `editor_cursor_up`. -/
def editor_cursor_up (e : Editor) : Editor :=
  if e.c.row = 0 then e
  else
    let prevLine := e.lines.getD (e.c.row - 1) default
    let prevLineSize := prevLine.end_ - prevLine.start
    if prevLineSize ≥ e.c.col then
      { e with c := { e.c with pos := prevLine.start + e.c.col } }
    else
      { e with c := { e.c with pos := prevLine.end_ } }

/-- `editor_cursor_to_first_line`. -/
def editor_cursor_to_first_line (e : Editor) : Editor :=
  let firstLine := e.lines.getD 0 default
  { e with c := { e.c with pos := firstLine.start } }

/-- `editor_cursor_to_last_line`. -/
def editor_cursor_to_last_line (e : Editor) : Editor :=
  let lastLine := e.lines.getD (e.lines.length - 1) default
  { e with c := { e.c with pos := lastLine.end_ } }

/-- The `for` loop of `editor_cursor_to_next_empty_line` over
`lines.items[i..count)`: the first line of size zero, if any. -/
def editor_cursor_to_next_empty_line_loop : List Line → Option Line
  | [] => none
  | line :: rest =>
    let lineSize := line.end_ - line.start
    if lineSize = 0 then some line
    else editor_cursor_to_next_empty_line_loop rest

/-- `editor_cursor_to_next_empty_line`. -/
def editor_cursor_to_next_empty_line (e : Editor) : Editor :=
  match editor_cursor_to_next_empty_line_loop (e.lines.drop (e.c.row + 1)) with
  | some line => { e with c := { e.c with pos := line.start } }
  | none =>
    let lastLine := e.lines.getD (e.lines.length - 1) default
    { e with c := { e.c with pos := lastLine.start } }

/-- The `for` loop of `editor_cursor_to_prev_empty_line`, counting `i` down and
stopping before index zero: the first line of size zero met, if any. -/
def editor_cursor_to_prev_empty_line_loop (lines : List Line) : Nat → Option Line
  | 0 => none
  | i + 1 =>
    let line := lines.getD (i + 1) default
    let lineSize := line.end_ - line.start
    if lineSize = 0 then some line
    else editor_cursor_to_prev_empty_line_loop lines i

/-- `editor_cursor_to_prev_empty_line`. -/
def editor_cursor_to_prev_empty_line (e : Editor) : Editor :=
  if e.c.row = 0 ∨ e.c.row ≥ e.lines.length then e
  else
    match editor_cursor_to_prev_empty_line_loop e.lines (e.c.row - 1) with
    | some line => { e with c := { e.c with pos := line.start } }
    | none =>
      let firstLine := e.lines.getD 0 default
      { e with c := { e.c with pos := firstLine.start } }

/-- `editor_remove_char_at_cursor`. -/
def editor_remove_char_at_cursor (e : Editor) : Editor :=
  if e.buffer.length = 0 then e
  else if e.c.pos > e.buffer.length - 1 then e
  else
    let len := e.buffer.length - (e.c.pos + 1)
    let items1 := memmove e.buffer e.c.pos (e.c.pos + 1) len
    editor_calculate_lines { e with buffer := items1.take (e.buffer.length - 1) }

/-- `editor_select`. -/
def editor_select (e : Editor) (startingPos : Nat) : Editor :=
  if e.buffer.length = 0 then e
  else if !e.selection.exists_ then
    { e with selection := { start := startingPos, end_ := e.c.pos, exists_ := true } }
  else
    { e with selection := { e.selection with end_ := e.c.pos } }

/-- `editor_remove_word_before_cursor`.  The local `startingPos` is an `int`;
`editor_select` receives it converted back to `size_t`. -/
def editor_remove_word_before_cursor (e : Editor) : Editor :=
  let startingPos : Int := to_int e.c.pos
  let e1 := editor_cursor_to_prev_word e
  let e2 := editor_select e1 (int_to_size startingPos)
  editor_selection_delete e2

/-- `editor_remove_word_after_cursor`.  The local `startingPos` is an `int`;
`editor_select` receives it converted back to `size_t`. -/
def editor_remove_word_after_cursor (e : Editor) : Editor :=
  let startingPos : Int := to_int e.c.pos
  let e1 := editor_cursor_to_next_word e
  let e2 := editor_select e1 (int_to_size startingPos)
  editor_selection_delete e2

/-- The libc `strncpy` as the `n` bytes it writes: the bytes of `src` up to its
first zero byte, at most `n` of them, then zero bytes.  (Past the end of `src`
the embedding reads zero.) -/
def strncpy : List Byte → Nat → List Byte
  | _, 0 => []
  | [], n + 1 => List.replicate (n + 1) 0
  | b :: rest, n + 1 =>
    if b = 0 then List.replicate (n + 1) 0 else b :: strncpy rest n

/-- The libc `strlen` of the C string held in `text`: the number of bytes
before the first zero byte. -/
def strlen (text : List Byte) : Nat := (text.takeWhile (fun b => b != 0)).length

/-- The C string held in `text`: the bytes before the first zero byte.  This is
what `SetClipboardText` receives. -/
def c_string (text : List Byte) : List Byte := text.take (strlen text)

/-- `editor_copy`: the text handed to `SetClipboardText`.  The editor state is
not changed.  The locals `start`, `end` and `length` are `int`; `strncpy`
receives `length` converted to `size_t`. -/
def editor_copy (e : Editor) : List Byte :=
  if e.selection.exists_ then
    let start : Int := to_int (if e.selection.end_ > e.selection.start then e.selection.start
                               else e.selection.end_)
    let end_ : Int := to_int (if e.selection.end_ > e.selection.start then e.selection.end_
                              else e.selection.start)
    let length : Int := wrap_int (end_ - start)
    let text := strncpy (e.buffer.drop (int_to_size start)) (int_to_size length) ++ [0]
    c_string text
  else
    let currentLine := e.lines.getD e.c.row default
    let length : Int := to_int (size_sub currentLine.end_ currentLine.start)
    let text := strncpy (e.buffer.drop currentLine.start) (int_to_size length) ++ [0]
    c_string text

/-- `editor_cut`: the text handed to the clipboard and the new state. -/
def editor_cut (e : Editor) : List Byte × Editor :=
  let clip := editor_copy e
  if e.selection.exists_ then (clip, editor_selection_delete e)
  else
    let currentLine := e.lines.getD e.c.row default
    let e1 : Editor :=
      { e with selection := { exists_ := true, start := currentLine.start,
                               end_ := currentLine.end_ } }
    (clip, editor_selection_delete e1)

/-- `editor_paste`, `text` being what `GetClipboardText` returns: the bytes
`text[0]`, ..., `text[strlen(text) - 1]` are inserted one after the other. -/
def editor_paste (e : Editor) (text : List Byte) : Editor :=
  let e1 := if e.selection.exists_ then editor_selection_delete e else e
  (text.take (strlen text)).foldl editor_insert_char_at_cursor e1

/-- The delete block of `editor_update` (Delete). -/
def editor_update_delete (e : Editor) : Editor :=
  if e.selection.exists_ then editor_selection_delete e
  else editor_remove_char_at_cursor e

/-- The page-up block of `editor_update`: `e->c.row+1 - 10` is computed in
`size_t`. -/
def editor_update_page_up (e : Editor) : Editor :=
  let r := editor_cursor_to_line_number e (size_sub ((e.c.row + 1) % SIZE_MOD) 10)
  if !r.1 then editor_cursor_to_first_line r.2 else r.2

/-- The page-down block of `editor_update`: `e->c.row+1 + 10` is computed in
`size_t`. -/
def editor_update_page_down (e : Editor) : Editor :=
  let r := editor_cursor_to_line_number e ((e.c.row + 1 + 10) % SIZE_MOD)
  if !r.1 then editor_cursor_to_last_line r.2 else r.2

/-- The bytes of the allocation past `count` once `editor_selection_delete` has
run, `slack` being those bytes before: `memmove` writes below the new count
only, so from the new count on the allocation holds what it held, the stale
tail of the old buffer followed by `slack`. -/
def editor_selection_delete_slack (e : Editor) (slack : List Byte) : List Byte :=
  (e.buffer ++ slack).drop (editor_selection_delete e).buffer.length

/-- The bytes of the allocation past `count` once `editor_cut` has run, `slack`
being those bytes before; `editor_cut` changes the buffer through
`editor_selection_delete` only. -/
def editor_cut_slack (e : Editor) (slack : List Byte) : List Byte :=
  (e.buffer ++ slack).drop (editor_cut e).2.buffer.length

/-- The space-counting `for` loop of the enter block of `editor_update`, over
the bytes of the allocation from `items[currentLine.start]` on: it stops at the
first byte that is not a space.  The loop has no bound of its own, neither the
end of the line nor `count`; the list given to it therefore holds the bytes of
the buffer and the bytes of the allocation past `count`. -/
def editor_update_enter_spaces : List Byte → Nat → Nat
  | [], spaces => spaces
  | b :: rest, spaces =>
    if b = SPACE then editor_update_enter_spaces rest (spaces + 1) else spaces

/-- The enter block of `editor_update` (Insert-newline-with-indent).  `slack`
holds the bytes of the allocation past `count` (`items[count]`, ...) when the
block starts.  The line is looked up with the row stored in the cursor, and the
local `spaces` is an `int`. -/
def editor_update_enter (e : Editor) (slack : List Byte) : Editor :=
  let e1 := if e.selection.exists_ then editor_selection_delete e else e
  let slack1 := if e.selection.exists_ then editor_selection_delete_slack e slack else slack
  let currentLine := e1.lines.getD e1.c.row default
  let spaces : Int :=
    to_int (editor_update_enter_spaces ((e1.buffer ++ slack1).drop currentLine.start) 0)
  let e2 := editor_insert_char_at_cursor e1 NEWLINE
  (List.replicate spaces.toNat SPACE).foldl editor_insert_char_at_cursor e2

/-- The cursor_up and cursor_down blocks of `editor_update`, each of which
occurs twice in the source, in this order, with the word-movement blocks in
between; `up` and `down` are the two input flags. -/
def editor_update_vertical (up down : Bool) (e : Editor) : Editor :=
  let e1 := if up then editor_cursor_up e else e
  let e2 := if down then editor_cursor_down e1 else e1
  let e3 := if up then editor_cursor_up e2 else e2
  if down then editor_cursor_down e3 else e3

/-- `Notification` of main.c: the message and the timer (a `double` in the
source, here the number of seconds as a rational). -/
structure Notification where
  items : List Byte
  timer : Rat
  deriving DecidableEq, Repr, Inhabited

/-- The state of `Editor` of main.c that `editor_load_file` touches: the editing
core, the file name (`none` is `NULL`) and the notification. -/
structure Session where
  editor : Editor
  filename : Option (List Byte)
  notif : Notification
  deriving DecidableEq, Repr, Inhabited

/-- `notification_issue`. -/
def notification_issue (_n : Notification) (message : List Byte) (timeout : Rat) :
    Notification :=
  { items := message, timer := timeout }

/-- `editor_load_file`.  `file` is what the file system gives for `filename`:
`none` when `fopen` returns `NULL`, the bytes of the file otherwise.  The window
title and the message `perror` prints are outside the embedding. -/
def editor_load_file (s : Session) (filename : List Byte) (file : Option (List Byte)) :
    Session :=
  let s1 : Session := { s with filename := some filename }
  match file with
  | none => s1
  | some bytes =>
    { s1 with editor := editor_calculate_lines { s1.editor with buffer := bytes } }

/-! ## Definitions used to state and prove the properties -/

/-- The line index of a buffer: what `editor_calculate_lines` stores. -/
def lineIndex (buf : List Byte) : List Line :=
  (editor_calculate_lines { c := default, buffer := buf, lines := [], selection := default }).lines

/-- The bytes of the half-open range `[start, end)` of a line. -/
def lineBytes (buf : List Byte) (l : Line) : List Byte :=
  (buf.drop l.start).take (l.end_ - l.start)

/-- The lines found by the scan of `editor_calculate_lines` from index `i` on,
the current line having started at `s`, the closing line included. -/
def linesFrom : List Byte → Nat → Nat → List Line
  | [], i, s => [{ start := s, end_ := i }]
  | ch :: rest, i, s =>
    if ch = NEWLINE then { start := s, end_ := i } :: linesFrom rest (i + 1) (i + 1)
    else linesFrom rest (i + 1) s

/-- What it means for a line to be a line of the buffer: its range lies in the
buffer and holds no newline, it ends at a newline or at the end of the buffer,
and it starts at offset zero or just after a newline. -/
def LineWF (buf : List Byte) (l : Line) : Prop :=
  l.start ≤ l.end_ ∧ l.end_ ≤ buf.length ∧
  (∀ k, l.start ≤ k → k < l.end_ → buf.getD k 0 ≠ NEWLINE) ∧
  (l.end_ = buf.length ∨ buf.getD l.end_ 0 = NEWLINE) ∧
  (l.start = 0 ∨ buf.getD (l.start - 1) 0 = NEWLINE)

/-- The word separators of the word navigation: the space and the newline. -/
def isSeparator (b : Byte) : Prop := b = SPACE ∨ b = NEWLINE

/-- The index `i` is a landing place of Word-right from `pos`: it lies in
`[pos, length)`, some byte of `buffer[pos..i]` (both ends included) is a
separator, and `buffer[i]` is a non-separator or a newline. -/
def NextWordTarget (buf : List Byte) (pos i : Nat) : Prop :=
  pos ≤ i ∧ i < buf.length ∧
  (∃ j, pos ≤ j ∧ j ≤ i ∧ isSeparator (buf.getD j 0)) ∧
  (¬ isSeparator (buf.getD i 0) ∨ buf.getD i 0 = NEWLINE)

/-- A consistent state: the line index is the recomputed one, the cursor lies
in the buffer, the buffer count is a `size_t` value, and the row and the column
stored in the cursor are the ones `editor_cursor_update` derives. -/
def Consistent (e : Editor) : Prop :=
  e.lines = lineIndex e.buffer ∧ e.c.pos ≤ e.buffer.length ∧ e.buffer.length < SIZE_MOD ∧
  e.c.row = cursor_get_row e.c e.lines ∧ e.c.col = cursor_get_col e.c e.lines

theorem calculate_lines_loop_eq (cs : List Byte) (i : Nat) (line : Line) (acc : List Line) :
    (editor_calculate_lines_loop cs i line acc).2 ++
      [{ start := (editor_calculate_lines_loop cs i line acc).1.start, end_ := i + cs.length }]
    = acc ++ linesFrom cs i line.start := by
  induction cs generalizing i line acc with
  | nil => simp [editor_calculate_lines_loop, linesFrom]
  | cons ch rest ih =>
    by_cases h : ch = NEWLINE
    · simp only [editor_calculate_lines_loop, linesFrom, h, if_true, da_append, List.length_cons]
      rw [show i + (rest.length + 1) = (i + 1) + rest.length by omega, ih]
      simp
    · simp only [editor_calculate_lines_loop, linesFrom, h, if_false, List.length_cons]
      rw [show i + (rest.length + 1) = (i + 1) + rest.length by omega, ih]

theorem calculate_lines_lines (e : Editor) :
    (editor_calculate_lines e).lines = linesFrom e.buffer 0 0 := by
  have h := calculate_lines_loop_eq e.buffer 0 { start := 0, end_ := 0 } []
  simpa [editor_calculate_lines, da_append, da_free] using h

theorem linesFrom_length (cs : List Byte) (i s : Nat) :
    (linesFrom cs i s).length = cs.count NEWLINE + 1 := by
  induction cs generalizing i s with
  | nil => simp [linesFrom]
  | cons ch rest ih =>
    by_cases h : ch = NEWLINE
    · simp [linesFrom, h, ih]
    · have h2 : ¬ (ch == NEWLINE) = true := by simpa using h
      simp [linesFrom, h, ih, List.count_cons, h2]

/-- C1: for every buffer content (and whatever the previous line index was),
`editor_calculate_lines` leaves a line index whose count is the number of
newline bytes of the buffer plus one. -/
theorem C1_line_count (e : Editor) :
    (editor_calculate_lines e).lines.length = e.buffer.count NEWLINE + 1 := by
  rw [calculate_lines_lines, linesFrom_length]

theorem drop_cons_facts {buf cs : List Byte} {ch : Byte} {i : Nat}
    (h : buf.drop i = ch :: cs) :
    buf.getD i 0 = ch ∧ buf.drop (i + 1) = cs ∧ i < buf.length := by
  have hlt : i < buf.length := by
    by_contra hn
    rw [List.drop_eq_nil_of_le (by omega)] at h
    exact List.noConfusion h
  refine ⟨?_, ?_, hlt⟩
  · have h2 : (buf.drop i)[0]? = some ch := by rw [h]; simp
    rw [List.getElem?_drop, Nat.add_zero] at h2
    simp [List.getD_eq_getElem?_getD, h2]
  · have h2 : (buf.drop i).drop 1 = cs := by rw [h]; rfl
    rw [List.drop_drop] at h2
    rw [← h2, Nat.add_comm]

theorem linesFrom_ne_nil (cs : List Byte) (i s : Nat) : linesFrom cs i s ≠ [] := by
  intro h
  have h2 := linesFrom_length cs i s
  rw [h] at h2
  simp at h2

theorem intercalate_cons_of_ne_nil {α : Type} (sep x : List α) (xs : List (List α))
    (h : xs ≠ []) :
    List.intercalate sep (x :: xs) = x ++ (sep ++ List.intercalate sep xs) := by
  cases xs with
  | nil => exact absurd rfl h
  | cons y ys => simp [List.intercalate, List.intersperse]

theorem linesFrom_join (buf : List Byte) (cs : List Byte) (i s : Nat)
    (hcs : buf.drop i = cs) (hs : s ≤ i) :
    List.intercalate [NEWLINE] ((linesFrom cs i s).map (lineBytes buf)) = buf.drop s := by
  induction cs generalizing i s with
  | nil =>
    have hlen : buf.length ≤ i := by
      by_contra hn
      have := congrArg List.length hcs
      simp at this
      omega
    simp [linesFrom, lineBytes, List.intercalate]
    omega
  | cons ch rest ih =>
    obtain ⟨hget, hdrop, hlt⟩ := drop_cons_facts hcs
    by_cases h : ch = NEWLINE
    · simp only [linesFrom, h, if_true, List.map_cons]
      rw [intercalate_cons_of_ne_nil _ _ _ (by simpa using linesFrom_ne_nil rest (i + 1) (i + 1)),
        ih (i + 1) (i + 1) hdrop (le_refl _)]
      have h1 : buf.drop s = (buf.drop s).take (i - s) ++ (buf.drop s).drop (i - s) :=
        (List.take_append_drop _ _).symm
      rw [List.drop_drop, show s + (i - s) = i by omega, hcs, h, ← hdrop] at h1
      simpa [lineBytes] using h1.symm
    · simp only [linesFrom, h, if_false]
      exact ih (i + 1) s hdrop (by omega)

theorem linesFrom_wf (buf : List Byte) (cs : List Byte) (i s : Nat)
    (hcs : buf.drop i = cs) (hs : s ≤ i) (hi : i ≤ buf.length)
    (hno : ∀ k, s ≤ k → k < i → buf.getD k 0 ≠ NEWLINE)
    (hstart : s = 0 ∨ buf.getD (s - 1) 0 = NEWLINE) :
    ∀ l ∈ linesFrom cs i s, LineWF buf l := by
  induction cs generalizing i s with
  | nil =>
    have hlen : buf.length = i := by
      have := congrArg List.length hcs
      simp at this
      omega
    intro l hl
    simp only [linesFrom, List.mem_singleton] at hl
    subst hl
    exact ⟨hs, by simp [hlen], hno, Or.inl hlen.symm, hstart⟩
  | cons ch rest ih =>
    obtain ⟨hget, hdrop, hlt⟩ := drop_cons_facts hcs
    by_cases h : ch = NEWLINE
    · simp only [linesFrom, h, if_true, List.mem_cons]
      rintro l (hl | hl)
      · subst hl
        exact ⟨hs, hi, hno, Or.inr (by rw [hget, h]), hstart⟩
      · refine ih (i + 1) (i + 1) hdrop (le_refl _) hlt ?_ ?_ l hl
        · intro k h1 h2; omega
        · right; simpa [h] using hget
    · simp only [linesFrom, h, if_false]
      refine ih (i + 1) s hdrop (by omega) hlt ?_ hstart
      intro k h1 h2
      by_cases hk : k = i
      · subst hk; rw [hget]; exact h
      · exact hno k h1 (by omega)

theorem linesFrom_head (cs : List Byte) (i s : Nat) :
    ((linesFrom cs i s).getD 0 default).start = s := by
  induction cs generalizing i with
  | nil => simp [linesFrom]
  | cons ch rest ih =>
    by_cases h : ch = NEWLINE
    · simp [linesFrom, h]
    · simpa [linesFrom, h] using ih (i + 1)

theorem linesFrom_consecutive (cs : List Byte) (i s j : Nat)
    (hj : j + 1 < (linesFrom cs i s).length) :
    ((linesFrom cs i s).getD (j + 1) default).start
      = ((linesFrom cs i s).getD j default).end_ + 1 := by
  induction cs generalizing i s j with
  | nil => simp [linesFrom] at hj
  | cons ch rest ih =>
    by_cases h : ch = NEWLINE
    · simp only [linesFrom, h, if_true, List.length_cons] at hj ⊢
      cases j with
      | zero => simpa using linesFrom_head rest (i + 1) (i + 1)
      | succ j =>
        simp only [List.getD_cons_succ]
        exact ih (i + 1) (i + 1) j (by omega)
    · simp only [linesFrom, h, if_false] at hj ⊢
      exact ih (i + 1) s j hj

theorem linesFrom_last (cs : List Byte) (i s : Nat) :
    ((linesFrom cs i s).getD ((linesFrom cs i s).length - 1) default).end_
      = i + cs.length := by
  induction cs generalizing i s with
  | nil => simp [linesFrom]
  | cons ch rest ih =>
    by_cases h : ch = NEWLINE
    · simp only [linesFrom, h, if_true, List.length_cons, Nat.add_sub_cancel]
      have hpos : 0 < (linesFrom rest (i + 1) (i + 1)).length :=
        List.length_pos.mpr (linesFrom_ne_nil _ _ _)
      obtain ⟨n, hn⟩ : ∃ n, (linesFrom rest (i + 1) (i + 1)).length = n + 1 :=
        ⟨(linesFrom rest (i + 1) (i + 1)).length - 1, by omega⟩
      have := ih (i + 1) (i + 1)
      rw [hn] at this ⊢
      simp only [List.getD_cons_succ]
      simp only [Nat.add_sub_cancel] at this
      omega
    · simp only [linesFrom, h, if_false, List.length_cons]
      have := ih (i + 1) s
      omega

theorem getD_mem {α : Type} (l : List α) (i : Nat) (d : α) (h : i < l.length) :
    l.getD i d ∈ l := by
  rw [List.getD_eq_getElem _ _ h]
  exact List.getElem_mem h

theorem calculate_lines_wf (e : Editor) :
    ∀ l ∈ (editor_calculate_lines e).lines, LineWF e.buffer l := by
  rw [calculate_lines_lines]
  exact linesFrom_wf e.buffer e.buffer 0 0 rfl (le_refl _) (Nat.zero_le _)
    (fun k _ h => absurd h (Nat.not_lt_zero k)) (Or.inl rfl)

theorem mem_take_drop_getD (buf : List Byte) (s n : Nat) (b : Byte)
    (h : b ∈ (buf.drop s).take n) : ∃ k, s ≤ k ∧ k < s + n ∧ buf.getD k 0 = b := by
  obtain ⟨k, hk, hb⟩ := List.getElem_of_mem h
  rw [List.getElem_take, List.getElem_drop] at hb
  simp only [List.length_take, List.length_drop] at hk
  refine ⟨s + k, by omega, by omega, ?_⟩
  rw [List.getD_eq_getElem _ _ (by omega)]
  exact hb

/-- C2: for every buffer content, the byte ranges `[start, end)` of the lines
left by `editor_calculate_lines`, taken in order and joined with one newline
byte between consecutive lines, are the buffer itself; and no line's range
holds a newline byte. -/
theorem C2_lines_join (e : Editor) :
    List.intercalate [NEWLINE]
        ((editor_calculate_lines e).lines.map (lineBytes e.buffer)) = e.buffer
    ∧ ∀ l ∈ (editor_calculate_lines e).lines, NEWLINE ∉ lineBytes e.buffer l := by
  constructor
  · rw [calculate_lines_lines]
    simpa using linesFrom_join e.buffer e.buffer 0 0 rfl (le_refl _)
  · intro l hl hmem
    obtain ⟨h1, _, hno, _, _⟩ := calculate_lines_wf e l hl
    obtain ⟨k, hk1, hk2, hk3⟩ := mem_take_drop_getD _ _ _ _ hmem
    exact hno k hk1 (by omega) hk3

/-- C3: for every buffer the line index left by `editor_calculate_lines` is
non-empty, its first line starts at offset 0, every line has `start <= end`,
each line starts one past the end of the line before it, and the last line
ends at the buffer length; the empty buffer gives the single line `{0, 0}`. -/
theorem C3_line_invariant (e : Editor) :
    (editor_calculate_lines e).lines ≠ []
    ∧ ((editor_calculate_lines e).lines.getD 0 default).start = 0
    ∧ (∀ i, i < (editor_calculate_lines e).lines.length →
        ((editor_calculate_lines e).lines.getD i default).start
          ≤ ((editor_calculate_lines e).lines.getD i default).end_)
    ∧ (∀ i, i + 1 < (editor_calculate_lines e).lines.length →
        ((editor_calculate_lines e).lines.getD (i + 1) default).start
          = ((editor_calculate_lines e).lines.getD i default).end_ + 1)
    ∧ ((editor_calculate_lines e).lines.getD
          ((editor_calculate_lines e).lines.length - 1) default).end_ = e.buffer.length
    ∧ (e.buffer = [] →
        (editor_calculate_lines e).lines = [{ start := 0, end_ := 0 }]) := by
  refine ⟨?_, ?_, ?_, ?_, ?_, ?_⟩
  · rw [calculate_lines_lines]; exact linesFrom_ne_nil _ _ _
  · rw [calculate_lines_lines]; exact linesFrom_head _ _ _
  · intro i hi
    exact (calculate_lines_wf e _ (getD_mem _ i default hi)).1
  · rw [calculate_lines_lines]; exact fun i hi => linesFrom_consecutive _ _ _ i hi
  · rw [calculate_lines_lines]; simpa using linesFrom_last e.buffer 0 0
  · intro h
    rw [calculate_lines_lines, h]
    rfl

/-! ## Insertion, deletion and the selection -/

theorem set_length_append {α : Type} (a r : List α) (x y : α) (n : Nat) (hn : n = a.length) :
    (a ++ x :: r).set n y = a ++ y :: r := by
  subst hn
  induction a with
  | nil => rfl
  | cons b a ih => simp [List.set, ih]

theorem insert_items (buf : List Byte) (pos : Nat) (ch : Byte) (h : pos ≤ buf.length) :
    (memmove (da_append buf 0) (pos + 1) pos ((da_append buf 0).length - 1 - pos)).set pos ch
      = buf.take pos ++ ch :: buf.drop pos := by
  unfold memmove da_append
  have h1 : (buf ++ [0]).take (pos + 1) = buf.take pos ++ [(buf ++ [0]).getD pos 0] := by
    rw [List.take_succ, List.take_append_of_le_length h]
    congr 1
    have : pos < (buf ++ [0]).length := by simp; omega
    rw [List.getD_eq_getElem _ _ this, List.getElem?_eq_getElem this]
    rfl
  have h2 : ((buf ++ [0]).drop pos).take ((buf ++ [0]).length - 1 - pos) = buf.drop pos := by
    rw [List.drop_append_of_le_length h]
    apply List.take_left'
    simp
  have h3 : (buf ++ [0]).drop (pos + 1 + ((buf ++ [0]).length - 1 - pos)) = [] := by
    apply List.drop_eq_nil_of_le
    simp; omega
  rw [h1, h2, h3, List.append_nil, List.append_assoc]
  exact set_length_append _ _ _ _ _ (by simp [h])

theorem size_sub_eq (a b : Nat) (h1 : b ≤ a) (h2 : a < SIZE_MOD) : size_sub a b = a - b := by
  simp only [size_sub, SIZE_MOD] at *
  norm_num at *
  omega

theorem to_int_exact (n : Nat) (h : n < INT_LIMIT) : to_int n = (n : Int) := by
  unfold to_int wrap_int
  have hI : INT_LIMIT = 2147483648 := rfl
  omega

theorem int_to_size_exact (n : Nat) (h : n < INT_LIMIT) : int_to_size (n : Int) = n := by
  unfold int_to_size
  have hI : INT_LIMIT = 2147483648 := rfl
  omega

theorem int_round_trip (n : Nat) (h : n < INT_LIMIT) : int_to_size (to_int n) = n := by
  rw [to_int_exact n h, int_to_size_exact n h]

theorem int_sub_exact (a b : Nat) (hab : a ≤ b) (hb : b < INT_LIMIT) :
    int_to_size (wrap_int ((b : Int) - (a : Int))) = b - a := by
  unfold int_to_size wrap_int
  have hI : INT_LIMIT = 2147483648 := rfl
  omega

theorem int_limit_lt_size (n : Nat) (h : n < INT_LIMIT) : n < SIZE_MOD := by
  have hI : INT_LIMIT = 2147483648 := rfl
  have hS : SIZE_MOD = 18446744073709551616 := by norm_num [SIZE_MOD]
  omega

theorem memmove_length (buf : List Byte) (lo hi : Nat) (h1 : lo ≤ hi) (h2 : hi ≤ buf.length) :
    (memmove buf lo hi (buf.length - hi)).length = buf.length := by
  unfold memmove
  simp only [List.length_append, List.length_take, List.length_drop]
  omega

theorem delete_items (buf : List Byte) (lo hi : Nat) (h1 : lo ≤ hi) (h2 : hi ≤ buf.length) :
    (memmove buf lo hi (buf.length - hi)).take (buf.length - (hi - lo))
      = buf.take lo ++ buf.drop hi := by
  unfold memmove
  have h3 : (buf.drop hi).take (buf.length - hi) = buf.drop hi := by
    apply List.take_of_length_le; simp
  rw [h3, ← List.append_assoc]
  apply List.take_left'
  simp; omega

theorem lineIndex_eq (buf : List Byte) : lineIndex buf = linesFrom buf 0 0 := by
  unfold lineIndex; rw [calculate_lines_lines]

theorem calculate_lines_eq (e : Editor) :
    editor_calculate_lines e = { e with lines := lineIndex e.buffer } := by
  have h := calculate_lines_lines e
  rw [← lineIndex_eq] at h
  cases e
  simp only [editor_calculate_lines] at h ⊢
  simp [h]

theorem insert_char_eq (e : Editor) (ch : Byte) (h : e.c.pos ≤ e.buffer.length) :
    editor_insert_char_at_cursor e ch
      = { e with buffer := e.buffer.take e.c.pos ++ ch :: e.buffer.drop e.c.pos,
                 c := { e.c with pos := e.c.pos + 1 },
                 lines := lineIndex (e.buffer.take e.c.pos ++ ch :: e.buffer.drop e.c.pos) } := by
  unfold editor_insert_char_at_cursor
  simp only [insert_items e.buffer e.c.pos ch h, calculate_lines_eq]

theorem remove_char_before_eq (e : Editor) (h0 : e.c.pos ≠ 0) (h : e.c.pos ≤ e.buffer.length) :
    editor_remove_char_before_cursor e
      = { e with buffer := e.buffer.take (e.c.pos - 1) ++ e.buffer.drop e.c.pos,
                 c := { e.c with pos := e.c.pos - 1 },
                 lines := lineIndex (e.buffer.take (e.c.pos - 1) ++ e.buffer.drop e.c.pos) } := by
  unfold editor_remove_char_before_cursor
  have h1 := delete_items e.buffer (e.c.pos - 1) e.c.pos (by omega) h
  rw [show e.buffer.length - (e.c.pos - (e.c.pos - 1)) = e.buffer.length - 1 by omega] at h1
  simp only [h0, if_false, h1, calculate_lines_eq]

theorem selection_delete_range (buf : List Byte) (lo hi : Nat) (h1 : lo ≤ hi)
    (h2 : hi ≤ buf.length) (hb : buf.length < INT_LIMIT) :
    int_to_size (to_int lo) = lo
    ∧ (memmove buf (int_to_size (to_int lo)) (int_to_size (to_int hi))
          (size_sub buf.length (int_to_size (to_int hi)))).takeD
        (size_sub buf.length (int_to_size (wrap_int (to_int hi - to_int lo)))) 0
      = buf.take lo ++ buf.drop hi := by
  have hS := int_limit_lt_size _ hb
  have i1 : to_int lo = (lo : Int) := to_int_exact _ (by omega)
  have i2 : to_int hi = (hi : Int) := to_int_exact _ (by omega)
  have i3 : int_to_size (lo : Int) = lo := int_to_size_exact _ (by omega)
  have i4 : int_to_size (hi : Int) = hi := int_to_size_exact _ (by omega)
  have i5 := int_sub_exact lo hi h1 (by omega)
  have i6 : size_sub buf.length hi = buf.length - hi := size_sub_eq _ _ h2 hS
  have i7 : size_sub buf.length (hi - lo) = buf.length - (hi - lo) :=
    size_sub_eq _ _ (by omega) hS
  rw [i1, i2, i3, i4, i5, i6, i7]
  refine ⟨rfl, ?_⟩
  rw [List.takeD_eq_take _ (by rw [memmove_length buf lo hi h1 h2]; omega)]
  exact delete_items buf lo hi h1 h2

theorem selection_delete_pos (e : Editor) :
    (editor_selection_delete e).c.pos
      = int_to_size (to_int (min e.selection.start e.selection.end_)) := by
  unfold editor_selection_delete editor_selection_clear
  rw [calculate_lines_eq]
  by_cases h : e.selection.start ≤ e.selection.end_
  · simp only [h, if_true, min_eq_left h]
  · simp only [h, if_false, min_eq_right (Nat.le_of_not_le h)]

theorem selection_delete_length (e : Editor) :
    (editor_selection_delete e).buffer.length
      = size_sub e.buffer.length
          (int_to_size (wrap_int (to_int (max e.selection.start e.selection.end_)
                                    - to_int (min e.selection.start e.selection.end_)))) := by
  unfold editor_selection_delete editor_selection_clear
  rw [calculate_lines_eq]
  by_cases h : e.selection.start ≤ e.selection.end_
  · simp only [h, if_true, min_eq_left h, max_eq_right h, List.takeD_length]
  · simp only [h, if_false, min_eq_right (Nat.le_of_not_le h),
      max_eq_left (Nat.le_of_not_le h), List.takeD_length]

theorem selection_delete_eq (e : Editor)
    (hs : e.selection.start ≤ e.buffer.length) (he : e.selection.end_ ≤ e.buffer.length)
    (hb : e.buffer.length < INT_LIMIT) :
    editor_selection_delete e
      = { e with
            buffer := e.buffer.take (min e.selection.start e.selection.end_)
                        ++ e.buffer.drop (max e.selection.start e.selection.end_),
            c := { e.c with pos := min e.selection.start e.selection.end_ },
            selection := { start := 0, end_ := 0, exists_ := false },
            lines := lineIndex (e.buffer.take (min e.selection.start e.selection.end_)
                        ++ e.buffer.drop (max e.selection.start e.selection.end_)) } := by
  unfold editor_selection_delete editor_selection_clear
  by_cases h : e.selection.start ≤ e.selection.end_
  · obtain ⟨h0, h1⟩ := selection_delete_range e.buffer e.selection.start e.selection.end_ h he hb
    rw [h0] at h1
    simp only [h, if_true, h0, h1, calculate_lines_eq, min_eq_left h, max_eq_right h]
  · have h' : e.selection.end_ ≤ e.selection.start := by omega
    obtain ⟨h0, h1⟩ := selection_delete_range e.buffer e.selection.end_ e.selection.start h' hs hb
    rw [h0] at h1
    simp only [h, if_false, h0, h1, calculate_lines_eq, min_eq_right h', max_eq_left h']

/-- C4: for every state with `pos <= buffer length` and every byte `ch`,
`editor_insert_char_at_cursor` gives the buffer `buffer[0..pos) ++ [ch] ++
buffer[pos..)`, the cursor `pos + 1`, and the line index recomputed over the
new buffer. -/
theorem C4_insert_char (e : Editor) (ch : Byte) (h : e.c.pos ≤ e.buffer.length) :
    (editor_insert_char_at_cursor e ch).buffer
        = e.buffer.take e.c.pos ++ [ch] ++ e.buffer.drop e.c.pos
    ∧ (editor_insert_char_at_cursor e ch).c.pos = e.c.pos + 1
    ∧ (editor_insert_char_at_cursor e ch).lines
        = lineIndex (editor_insert_char_at_cursor e ch).buffer := by
  rw [insert_char_eq e ch h]
  simp

/-- C4 at the scenario of the spec: buffer "ab\ncd", cursor 1, inserting 'X'
gives "aXb\ncd", cursor 2 and the lines `{0,3}`, `{4,6}`. -/
theorem C4_insert_char_witness :
    (1 ≤ [97, 98, 10, 99, 100].length)
    ∧ ((editor_insert_char_at_cursor
          { c := { pos := 1, row := 0, col := 1 }, buffer := [97, 98, 10, 99, 100],
            lines := [{ start := 0, end_ := 2 }, { start := 3, end_ := 5 }],
            selection := { start := 0, end_ := 0, exists_ := false } } 88).buffer
        = [97, 98, 10, 99, 100].take 1 ++ [88] ++ [97, 98, 10, 99, 100].drop 1)
    ∧ (editor_insert_char_at_cursor
          { c := { pos := 1, row := 0, col := 1 }, buffer := [97, 98, 10, 99, 100],
            lines := [{ start := 0, end_ := 2 }, { start := 3, end_ := 5 }],
            selection := { start := 0, end_ := 0, exists_ := false } } 88)
        = { c := { pos := 2, row := 0, col := 1 }, buffer := [97, 88, 98, 10, 99, 100],
            lines := [{ start := 0, end_ := 3 }, { start := 4, end_ := 6 }],
            selection := { start := 0, end_ := 0, exists_ := false } } :=
  ⟨by decide,
   (C4_insert_char
      { c := { pos := 1, row := 0, col := 1 }, buffer := [97, 98, 10, 99, 100],
        lines := [{ start := 0, end_ := 2 }, { start := 3, end_ := 5 }],
        selection := { start := 0, end_ := 0, exists_ := false } } 88 (by decide)).1,
   by decide⟩

/-- C5 as stated fails when a selection is active: on buffer "ab" with
everything selected, Insert-char('X') first deletes the selection, and the
following Backspace only removes the 'X', leaving the empty buffer and cursor 0
instead of "ab" and cursor 2. -/
theorem C5_counterexample :
    (editor_update_backspace (editor_update_char
        { c := { pos := 2, row := 0, col := 2 }, buffer := [97, 98],
          lines := [{ start := 0, end_ := 2 }],
          selection := { start := 0, end_ := 2, exists_ := true } } 88)).buffer = []
    ∧ (editor_update_backspace (editor_update_char
        { c := { pos := 2, row := 0, col := 2 }, buffer := [97, 98],
          lines := [{ start := 0, end_ := 2 }],
          selection := { start := 0, end_ := 2, exists_ := true } } 88)).c.pos = 0 := by
  decide

/-- C5, amended: from any state with no active selection and `pos <= buffer
length`, and for any byte `ch`, Insert-char(ch) immediately followed by
Backspace restores the buffer content and the cursor position, leaves the
selection inactive, and leaves the line index recomputed over that buffer (so
the whole prior state, when its line index was the recomputed one). -/
theorem C5_insert_backspace (e : Editor) (ch : Byte)
    (hsel : e.selection.exists_ = false) (h : e.c.pos ≤ e.buffer.length) :
    (editor_update_backspace (editor_update_char e ch)).buffer = e.buffer
    ∧ (editor_update_backspace (editor_update_char e ch)).c.pos = e.c.pos
    ∧ (editor_update_backspace (editor_update_char e ch)).selection = e.selection
    ∧ (editor_update_backspace (editor_update_char e ch)).lines = lineIndex e.buffer
    ∧ (e.lines = lineIndex e.buffer →
        editor_update_backspace (editor_update_char e ch) = e) := by
  have h1 : editor_update_char e ch
      = { e with buffer := e.buffer.take e.c.pos ++ ch :: e.buffer.drop e.c.pos,
                 c := { e.c with pos := e.c.pos + 1 },
                 lines := lineIndex (e.buffer.take e.c.pos ++ ch :: e.buffer.drop e.c.pos) } := by
    unfold editor_update_char
    simp only [hsel, Bool.false_eq_true, if_false]
    exact insert_char_eq e ch h
  have hbuf : (e.buffer.take e.c.pos ++ ch :: e.buffer.drop e.c.pos).take e.c.pos
        ++ (e.buffer.take e.c.pos ++ ch :: e.buffer.drop e.c.pos).drop (e.c.pos + 1)
      = e.buffer := by
    have hl : (e.buffer.take e.c.pos).length = e.c.pos := by simp [h]
    rw [List.take_left' hl]
    have : (e.buffer.take e.c.pos ++ ch :: e.buffer.drop e.c.pos).drop (e.c.pos + 1)
        = e.buffer.drop e.c.pos := by
      rw [show e.buffer.take e.c.pos ++ ch :: e.buffer.drop e.c.pos
            = (e.buffer.take e.c.pos ++ [ch]) ++ e.buffer.drop e.c.pos by simp]
      apply List.drop_left'
      simp [h]
    rw [this, List.take_append_drop]
  have h2 : editor_update_backspace (editor_update_char e ch)
      = { e with lines := lineIndex e.buffer } := by
    unfold editor_update_backspace
    rw [h1]
    simp only [hsel, Bool.false_eq_true, if_false]
    rw [remove_char_before_eq _ (by simp) (by simp; omega)]
    simp only [Nat.add_sub_cancel, hbuf]
  rw [h2]
  refine ⟨rfl, rfl, rfl, rfl, ?_⟩
  intro hl
  rw [← hl]

/-- C5 (amended) at buffer "ab\ncd", cursor 1, no selection, byte 'X'. -/
theorem C5_insert_backspace_witness :
    editor_update_backspace (editor_update_char
        { c := { pos := 1, row := 0, col := 1 }, buffer := [97, 98, 10, 99, 100],
          lines := [{ start := 0, end_ := 2 }, { start := 3, end_ := 5 }],
          selection := { start := 0, end_ := 0, exists_ := false } } 88)
      = { c := { pos := 1, row := 0, col := 1 }, buffer := [97, 98, 10, 99, 100],
          lines := [{ start := 0, end_ := 2 }, { start := 3, end_ := 5 }],
          selection := { start := 0, end_ := 0, exists_ := false } } :=
  (C5_insert_backspace
      { c := { pos := 1, row := 0, col := 1 }, buffer := [97, 98, 10, 99, 100],
        lines := [{ start := 0, end_ := 2 }, { start := 3, end_ := 5 }],
        selection := { start := 0, end_ := 0, exists_ := false } } 88 rfl (by decide)).2.2.2.2
    (by decide)

/-- C6 as stated fails for offsets that an `int` does not hold: on a buffer of
`2^32 + 1` bytes with the last byte selected (offsets `2^32` and `2^32 + 1`,
both at most the buffer length) the `int` locals `start` and `end` of
`editor_selection_delete` are 0 and 1, so the cursor is left at 0, not at the
smaller offset `2^32`. -/
theorem C6_counterexample :
    (4294967296 ≤ (List.replicate 4294967297 (97 : Byte)).length)
    ∧ (4294967297 ≤ (List.replicate 4294967297 (97 : Byte)).length)
    ∧ (editor_selection_delete
        { c := { pos := 4294967297, row := 0, col := 4294967297 },
          buffer := List.replicate 4294967297 97,
          lines := [{ start := 0, end_ := 4294967297 }],
          selection := { start := 4294967296, end_ := 4294967297, exists_ := true } }).c.pos
        = 0
    ∧ (editor_selection_delete
        { c := { pos := 4294967297, row := 0, col := 4294967297 },
          buffer := List.replicate 4294967297 97,
          lines := [{ start := 0, end_ := 4294967297 }],
          selection := { start := 4294967296, end_ := 4294967297, exists_ := true } }).c.pos
        ≠ min 4294967296 4294967297 := by
  have hpos := selection_delete_pos
    { c := { pos := 4294967297, row := 0, col := 4294967297 },
      buffer := List.replicate 4294967297 97,
      lines := [{ start := 0, end_ := 4294967297 }],
      selection := { start := 4294967296, end_ := 4294967297, exists_ := true } }
  have hval : int_to_size (to_int (min 4294967296 4294967297)) = 0 := by decide
  refine ⟨?_, ?_, ?_, ?_⟩
  · rw [List.length_replicate]; decide
  · rw [List.length_replicate]
  · rw [hpos]; exact hval
  · rw [hpos]; show int_to_size (to_int (min 4294967296 4294967297)) ≠ min 4294967296 4294967297
    decide

/-- C6, amended: for every buffer shorter than `2^31` bytes and every selection
whose two offsets are at most the buffer length, in either order,
`editor_selection_delete` leaves the buffer `buffer[0..low) ++ buffer[high..)`
with `low` the smaller and `high` the larger offset, the cursor at `low`, the
selection reset to `{0, 0, false}` and the line index recomputed over the new
buffer; and deleting with the two offsets swapped gives the same state. -/
theorem C6_selection_delete (e : Editor)
    (hs : e.selection.start ≤ e.buffer.length) (he : e.selection.end_ ≤ e.buffer.length)
    (hb : e.buffer.length < INT_LIMIT) :
    (editor_selection_delete e).buffer
        = e.buffer.take (min e.selection.start e.selection.end_)
            ++ e.buffer.drop (max e.selection.start e.selection.end_)
    ∧ (editor_selection_delete e).c.pos = min e.selection.start e.selection.end_
    ∧ (editor_selection_delete e).selection = { start := 0, end_ := 0, exists_ := false }
    ∧ (editor_selection_delete e).lines = lineIndex (editor_selection_delete e).buffer
    ∧ editor_selection_delete e
        = editor_selection_delete
            { e with selection := { start := e.selection.end_, end_ := e.selection.start,
                                    exists_ := e.selection.exists_ } } := by
  refine ⟨?_, ?_, ?_, ?_, ?_⟩
  · rw [selection_delete_eq e hs he hb]
  · rw [selection_delete_eq e hs he hb]
  · rw [selection_delete_eq e hs he hb]
  · rw [selection_delete_eq e hs he hb]
  · rw [selection_delete_eq e hs he hb, selection_delete_eq _ he hs (by exact hb)]
    simp only [min_comm e.selection.end_, max_comm e.selection.end_]

/-- C6 (amended) on buffer "ab\ncd" with the selection given backwards, from 4
to 1. -/
theorem C6_selection_delete_witness :
    (4 ≤ [97, 98, 10, 99, 100].length) ∧ (1 ≤ [97, 98, 10, 99, 100].length)
    ∧ ([97, 98, 10, 99, 100].length < INT_LIMIT)
    ∧ editor_selection_delete
        { c := { pos := 1, row := 0, col := 1 }, buffer := [97, 98, 10, 99, 100],
          lines := [{ start := 0, end_ := 2 }, { start := 3, end_ := 5 }],
          selection := { start := 4, end_ := 1, exists_ := true } }
      = editor_selection_delete
        { c := { pos := 1, row := 0, col := 1 }, buffer := [97, 98, 10, 99, 100],
          lines := [{ start := 0, end_ := 2 }, { start := 3, end_ := 5 }],
          selection := { start := 1, end_ := 4, exists_ := true } }
    ∧ (editor_selection_delete
        { c := { pos := 1, row := 0, col := 1 }, buffer := [97, 98, 10, 99, 100],
          lines := [{ start := 0, end_ := 2 }, { start := 3, end_ := 5 }],
          selection := { start := 4, end_ := 1, exists_ := true } }).buffer = [97, 100] :=
  ⟨by decide, by decide, by decide,
   (C6_selection_delete
      { c := { pos := 1, row := 0, col := 1 }, buffer := [97, 98, 10, 99, 100],
        lines := [{ start := 0, end_ := 2 }, { start := 3, end_ := 5 }],
        selection := { start := 4, end_ := 1, exists_ := true } }
      (by decide) (by decide) (by decide)).2.2.2.2,
   by decide⟩

/-! ## Select-all and goto-line -/

theorem lineIndex_nil : lineIndex [] = [{ start := 0, end_ := 0 }] := by decide

theorem select_all_eq (e : Editor) (h : e.lines = lineIndex e.buffer) :
    editor_select_all e
      = { e with selection := { start := 0, end_ := e.buffer.length, exists_ := true } } := by
  unfold editor_select_all
  rw [h, lineIndex_eq]
  have h1 := linesFrom_head e.buffer 0 0
  have h2 := linesFrom_last e.buffer 0 0
  simp only [Nat.zero_add] at h2
  simp only [h1, h2]

theorem linesFrom_replicate (n i s : Nat) :
    linesFrom (List.replicate n (97 : Byte)) i s = [{ start := s, end_ := i + n }] := by
  induction n generalizing i with
  | zero => rfl
  | succ n ih =>
    rw [List.replicate_succ]
    simp only [linesFrom]
    rw [if_neg (by decide), ih]
    rw [show i + 1 + n = i + (n + 1) by omega]

theorem lineIndex_replicate (n : Nat) :
    lineIndex (List.replicate n (97 : Byte)) = [{ start := 0, end_ := n }] := by
  rw [lineIndex_eq, linesFrom_replicate, Nat.zero_add]

/-- C7 as stated fails for a buffer whose length an `int` does not hold: on a
buffer of `2^32` bytes 'a' with its recomputed line index (the one line
`{0, 2^32}`), `editor_select_all` selects `{0, 2^32}`, the `int` locals `start`
and `end` of `editor_selection_delete` are both 0, and the buffer keeps all its
`2^32` bytes. -/
theorem C7_counterexample :
    ([{ start := 0, end_ := 4294967296 }] = lineIndex (List.replicate 4294967296 (97 : Byte)))
    ∧ (editor_selection_delete (editor_select_all
        { c := { pos := 0, row := 0, col := 0 }, buffer := List.replicate 4294967296 97,
          lines := [{ start := 0, end_ := 4294967296 }],
          selection := { start := 0, end_ := 0, exists_ := false } })).buffer.length
      = 4294967296 := by
  have hl := lineIndex_replicate 4294967296
  refine ⟨hl.symm, ?_⟩
  rw [select_all_eq _ hl.symm, selection_delete_length]
  simp only [List.length_replicate]
  decide

/-- C7, amended: for every buffer shorter than `2^31` bytes whose line index is
the recomputed one, `editor_select_all` followed by `editor_selection_delete`
leaves the empty buffer, the cursor at 0, no active selection and the single
line `{0, 0}`, whatever the selection and the cursor were before. -/
theorem C7_select_all_delete (e : Editor) (h : e.lines = lineIndex e.buffer)
    (hb : e.buffer.length < INT_LIMIT) :
    (editor_selection_delete (editor_select_all e)).buffer = []
    ∧ (editor_selection_delete (editor_select_all e)).buffer.length = 0
    ∧ (editor_selection_delete (editor_select_all e)).c.pos = 0
    ∧ (editor_selection_delete (editor_select_all e)).selection.exists_ = false
    ∧ (editor_selection_delete (editor_select_all e)).lines = [{ start := 0, end_ := 0 }] := by
  rw [select_all_eq e h, selection_delete_eq _ (Nat.zero_le _) (le_refl _) (by exact hb)]
  simp [lineIndex_nil]

/-- C7 (amended) on buffer "ab\ncd" with the cursor at 4 and a selection already
active. -/
theorem C7_select_all_delete_witness :
    ([{ start := 0, end_ := 2 }, { start := 3, end_ := 5 }] = lineIndex [97, 98, 10, 99, 100])
    ∧ ([97, 98, 10, 99, 100].length < INT_LIMIT)
    ∧ (editor_selection_delete (editor_select_all
        { c := { pos := 4, row := 1, col := 1 }, buffer := [97, 98, 10, 99, 100],
          lines := [{ start := 0, end_ := 2 }, { start := 3, end_ := 5 }],
          selection := { start := 4, end_ := 1, exists_ := true } })).lines
      = [{ start := 0, end_ := 0 }] :=
  ⟨by decide, by decide,
   (C7_select_all_delete
      { c := { pos := 4, row := 1, col := 1 }, buffer := [97, 98, 10, 99, 100],
        lines := [{ start := 0, end_ := 2 }, { start := 3, end_ := 5 }],
        selection := { start := 4, end_ := 1, exists_ := true } } (by decide)
      (by decide)).2.2.2.2⟩

/-- C8: `editor_cursor_to_line_number e n` returns true exactly when
`1 <= n < lineCount`; when it returns true the cursor offset is the start of
line `n - 1` and nothing else changes; when it returns false the state is
unchanged. -/
theorem C8_goto_line (e : Editor) (n : Nat) :
    ((editor_cursor_to_line_number e n).1 = true ↔ (1 ≤ n ∧ n < e.lines.length))
    ∧ ((editor_cursor_to_line_number e n).1 = true →
        (editor_cursor_to_line_number e n).2
          = { e with c := { e.c with pos := (e.lines.getD (n - 1) default).start } })
    ∧ ((editor_cursor_to_line_number e n).1 = false →
        (editor_cursor_to_line_number e n).2 = e) := by
  unfold editor_cursor_to_line_number
  by_cases h : n < 1 ∨ n ≥ e.lines.length
  · have h2 : ¬ (1 ≤ n ∧ n < e.lines.length) := by omega
    simp only [if_pos h]
    simp [h2]
  · have h2 : 1 ≤ n ∧ n < e.lines.length := by omega
    simp only [if_neg h]
    simp [h2]

/-- C8 at the scenario of the spec: on buffer "one\ntwo\nthree" (three lines)
Goto-line(2) succeeds and puts the cursor at 4, Goto-line(5) fails and leaves
the state as it was. -/
theorem C8_goto_line_witness :
    (editor_cursor_to_line_number
        { c := { pos := 0, row := 0, col := 0 },
          buffer := [111, 110, 101, 10, 116, 119, 111, 10, 116, 104, 114, 101, 101],
          lines := [{ start := 0, end_ := 3 }, { start := 4, end_ := 7 },
                    { start := 8, end_ := 13 }],
          selection := { start := 0, end_ := 0, exists_ := false } } 2).2.c.pos = 4
    ∧ (editor_cursor_to_line_number
        { c := { pos := 0, row := 0, col := 0 },
          buffer := [111, 110, 101, 10, 116, 119, 111, 10, 116, 104, 114, 101, 101],
          lines := [{ start := 0, end_ := 3 }, { start := 4, end_ := 7 },
                    { start := 8, end_ := 13 }],
          selection := { start := 0, end_ := 0, exists_ := false } } 5)
      = (false,
        { c := { pos := 0, row := 0, col := 0 },
          buffer := [111, 110, 101, 10, 116, 119, 111, 10, 116, 104, 114, 101, 101],
          lines := [{ start := 0, end_ := 3 }, { start := 4, end_ := 7 },
                    { start := 8, end_ := 13 }],
          selection := { start := 0, end_ := 0, exists_ := false } }) := by
  refine ⟨?_, ?_⟩
  · rw [(C8_goto_line _ 2).2.1 (by decide)]
    decide
  · decide

/-! ## Word navigation -/

theorem next_word_loop_spec (buf : List Byte) (cs : List Byte) (i : Nat) (found : Bool)
    (hcs : buf.drop i = cs) :
    (∀ k, editor_cursor_to_next_word_loop cs i found = some k →
      (i ≤ k ∧ k < buf.length ∧
        (found = true ∨ ∃ j, i ≤ j ∧ j ≤ k ∧ isSeparator (buf.getD j 0)) ∧
        (¬ isSeparator (buf.getD k 0) ∨ buf.getD k 0 = NEWLINE)) ∧
      ∀ k2, i ≤ k2 → k2 < buf.length →
        (found = true ∨ ∃ j, i ≤ j ∧ j ≤ k2 ∧ isSeparator (buf.getD j 0)) →
        (¬ isSeparator (buf.getD k2 0) ∨ buf.getD k2 0 = NEWLINE) → k ≤ k2)
    ∧ (editor_cursor_to_next_word_loop cs i found = none →
      ∀ k2, i ≤ k2 → k2 < buf.length →
        (found = true ∨ ∃ j, i ≤ j ∧ j ≤ k2 ∧ isSeparator (buf.getD j 0)) →
        ¬ (¬ isSeparator (buf.getD k2 0) ∨ buf.getD k2 0 = NEWLINE)) := by
  induction cs generalizing i found with
  | nil =>
    have hlen : buf.length ≤ i := by
      have := congrArg List.length hcs
      simp at this
      omega
    refine ⟨fun k hk => by simp [editor_cursor_to_next_word_loop] at hk, ?_⟩
    intro _ k2 h1 h2
    omega
  | cons ch rest ih =>
    obtain ⟨hget, hdrop, hlt⟩ := drop_cons_facts hcs
    have hws : ((ch == SPACE || ch == NEWLINE) = true) ↔ isSeparator ch := by
      simp [isSeparator]
    by_cases hcond : ((if (ch == SPACE || ch == NEWLINE) then true else found)
        && (!(ch == SPACE || ch == NEWLINE) || ch == NEWLINE)) = true
    · have hloop : editor_cursor_to_next_word_loop (ch :: rest) i found = some i := by
        simp only [editor_cursor_to_next_word_loop, hcond, if_true]
      rw [hloop]
      refine ⟨?_, fun h => by simp at h⟩
      intro k hk
      simp only [Option.some.injEq] at hk
      subst hk
      refine ⟨⟨le_refl _, hlt, ?_, ?_⟩, fun k2 h1 _ _ _ => h1⟩
      · by_cases hsep : (ch == SPACE || ch == NEWLINE) = true
        · right
          exact ⟨i, le_refl _, le_refl _, by rw [hget]; exact hws.mp hsep⟩
        · left
          simpa [hsep] using hcond
      · rw [hget]
        by_cases hsep : (ch == SPACE || ch == NEWLINE) = true
        · right
          simpa [hsep] using hcond
        · left
          exact fun h => hsep (hws.mpr h)
    · have hloop : editor_cursor_to_next_word_loop (ch :: rest) i found
          = editor_cursor_to_next_word_loop rest (i + 1)
              (if (ch == SPACE || ch == NEWLINE) then true else found) := by
        simp only [editor_cursor_to_next_word_loop, hcond, if_false]
        simp
      rw [hloop]
      have hfound : ((if (ch == SPACE || ch == NEWLINE) then true else found) = true)
          ↔ (found = true ∨ isSeparator ch) := by
        rw [← hws]
        by_cases hsep : (ch == SPACE || ch == NEWLINE) = true <;> simp [hsep]
      have hnot : ¬ ((found = true ∨ isSeparator ch) ∧
          (¬ isSeparator ch ∨ ch = NEWLINE)) := by
        intro ⟨h1, h2⟩
        apply hcond
        have h1b := hfound.mpr h1
        rw [Bool.and_eq_true]
        refine ⟨h1b, ?_⟩
        rcases h2 with h2 | h2
        · have : (ch == SPACE || ch == NEWLINE) = false := by
            rw [← Bool.not_eq_true]; exact fun h => h2 (hws.mp h)
          simp [this]
        · simp [h2]
      have hstep : ∀ k2, i ≤ k2 →
          (found = true ∨ ∃ j, i ≤ j ∧ j ≤ k2 ∧ isSeparator (buf.getD j 0)) →
          (¬ isSeparator (buf.getD k2 0) ∨ buf.getD k2 0 = NEWLINE) →
          i + 1 ≤ k2 ∧ ((if (ch == SPACE || ch == NEWLINE) then true else found) = true
            ∨ ∃ j, i + 1 ≤ j ∧ j ≤ k2 ∧ isSeparator (buf.getD j 0)) := by
        intro k2 h1 h3 h4
        have hne : k2 ≠ i := by
          intro heq
          subst heq
          rw [hget] at h4
          apply hnot
          refine ⟨?_, h4⟩
          rcases h3 with h3 | ⟨j, hj1, hj2, hj3⟩
          · exact Or.inl h3
          · have : j = k2 := by omega
            subst this
            rw [hget] at hj3
            exact Or.inr hj3
        refine ⟨by omega, ?_⟩
        rw [hfound]
        rcases h3 with h3 | ⟨j, hj1, hj2, hj3⟩
        · exact Or.inl (Or.inl h3)
        · by_cases hji : j = i
          · subst hji
            rw [hget] at hj3
            exact Or.inl (Or.inr hj3)
          · exact Or.inr ⟨j, by omega, hj2, hj3⟩
      obtain ⟨ih1, ih2⟩ := ih (i + 1)
        (if (ch == SPACE || ch == NEWLINE) then true else found) hdrop
      refine ⟨?_, ?_⟩
      · intro k hk
        obtain ⟨⟨a1, a2, a3, a4⟩, hmin⟩ := ih1 k hk
        refine ⟨⟨by omega, a2, ?_, a4⟩, ?_⟩
        · rcases a3 with a3 | ⟨j, hj1, hj2, hj3⟩
          · rcases hfound.mp a3 with a3 | a3
            · exact Or.inl a3
            · exact Or.inr ⟨i, le_refl _, by omega, by rw [hget]; exact a3⟩
          · exact Or.inr ⟨j, by omega, hj2, hj3⟩
        · intro k2 h1 h2 h3 h4
          obtain ⟨b1, b2⟩ := hstep k2 h1 h3 h4
          exact hmin k2 b1 h2 b2 h4
      · intro hk k2 h1 h2 h3 h4
        obtain ⟨b1, b2⟩ := hstep k2 h1 h3 h4
        exact ih2 hk k2 b1 h2 b2 h4

theorem next_word_some (e : Editor) (k : Nat)
    (h : editor_cursor_to_next_word_loop (e.buffer.drop e.c.pos) e.c.pos false = some k) :
    NextWordTarget e.buffer e.c.pos k
    ∧ (∀ k2, NextWordTarget e.buffer e.c.pos k2 → k ≤ k2)
    ∧ editor_cursor_to_next_word e = { e with c := { e.c with pos := k } } := by
  obtain ⟨⟨a1, a2, a3, a4⟩, hmin⟩ := (next_word_loop_spec e.buffer _ e.c.pos false rfl).1 k h
  refine ⟨⟨a1, a2, ?_, a4⟩, ?_, ?_⟩
  · rcases a3 with a3 | a3
    · exact absurd a3 (by simp)
    · exact a3
  · intro k2 ⟨b1, b2, b3, b4⟩
    exact hmin k2 b1 b2 (Or.inr b3) b4
  · simp only [editor_cursor_to_next_word, h]

theorem next_word_none (e : Editor)
    (h : editor_cursor_to_next_word_loop (e.buffer.drop e.c.pos) e.c.pos false = none) :
    (∀ k2, ¬ NextWordTarget e.buffer e.c.pos k2)
    ∧ editor_cursor_to_next_word e
        = { e with c := { e.c with pos := (e.lines.getD e.c.row default).end_ } } := by
  have hn := (next_word_loop_spec e.buffer _ e.c.pos false rfl).2 h
  refine ⟨?_, ?_⟩
  · intro k2 ⟨b1, b2, b3, b4⟩
    exact hn k2 b1 b2 (Or.inr b3) b4
  · simp only [editor_cursor_to_next_word, h]

theorem prev_word_loop_spec (buf : List Byte) (i : Nat) (found : Bool) :
    (∀ k, editor_cursor_to_prev_word_loop buf i found = some k →
      (1 ≤ k ∧ k ≤ i ∧ (¬ isSeparator (buf.getD (k - 1) 0) ∨ buf.getD (k - 1) 0 = NEWLINE)) ∧
      ∀ k2, 1 ≤ k2 → k2 ≤ i → buf.getD (k2 - 1) 0 = NEWLINE → k2 ≤ k)
    ∧ (editor_cursor_to_prev_word_loop buf i found = none →
      ∀ k2, 1 ≤ k2 → k2 ≤ i → buf.getD (k2 - 1) 0 ≠ NEWLINE) := by
  induction i generalizing found with
  | zero =>
    refine ⟨fun k hk => by simp [editor_cursor_to_prev_word_loop] at hk, ?_⟩
    intro _ k2 h1 h2
    omega
  | succ i ih =>
    obtain ⟨ch, hch⟩ : ∃ ch, buf.getD i 0 = ch := ⟨_, rfl⟩
    have hws : ((ch == SPACE || ch == NEWLINE) = true) ↔ isSeparator ch := by
      simp [isSeparator]
    by_cases hcond : ((if (ch == SPACE || ch == NEWLINE) then true else found)
        && (!(ch == SPACE || ch == NEWLINE) || ch == NEWLINE)) = true
    · have hloop : editor_cursor_to_prev_word_loop buf (i + 1) found = some (i + 1) := by
        simp only [editor_cursor_to_prev_word_loop, hch, hcond, if_true]
      rw [hloop]
      refine ⟨?_, fun h => by simp at h⟩
      intro k hk
      simp only [Option.some.injEq] at hk
      subst hk
      refine ⟨⟨by omega, le_refl _, ?_⟩, fun k2 _ h2 _ => h2⟩
      simp only [Nat.add_sub_cancel]
      rw [hch]
      by_cases hsep : (ch == SPACE || ch == NEWLINE) = true
      · right
        simpa [hsep] using hcond
      · left
        exact fun h => hsep (hws.mpr h)
    · have hloop : editor_cursor_to_prev_word_loop buf (i + 1) found
          = editor_cursor_to_prev_word_loop buf i
              (if (ch == SPACE || ch == NEWLINE) then true else found) := by
        simp only [editor_cursor_to_prev_word_loop, hch, hcond, if_false]
        simp
      rw [hloop]
      have hnl : ch ≠ NEWLINE := by
        intro h
        apply hcond
        simp [h]
      obtain ⟨ih1, ih2⟩ := ih
        (if (ch == SPACE || ch == NEWLINE) then true else found)
      refine ⟨?_, ?_⟩
      · intro k hk
        obtain ⟨⟨a1, a2, a3⟩, hmax⟩ := ih1 k hk
        refine ⟨⟨a1, by omega, a3⟩, ?_⟩
        intro k2 h1 h2 h3
        by_cases hk2 : k2 = i + 1
        · subst hk2
          simp only [Nat.add_sub_cancel] at h3
          rw [hch] at h3
          exact absurd h3 hnl
        · exact hmax k2 h1 (by omega) h3
      · intro hk k2 h1 h2
        by_cases hk2 : k2 = i + 1
        · subst hk2
          simp only [Nat.add_sub_cancel]
          rw [hch]
          exact hnl
        · exact ih2 hk k2 h1 (by omega)

theorem get_row_loop_linesFrom (cs : List Byte) (i s pos k : Nat)
    (h1 : s ≤ pos) (h2 : pos ≤ i + cs.length) (hs : s ≤ i) :
    ∃ r, cursor_get_row_loop pos (linesFrom cs i s) k = some (k + r)
      ∧ r < (linesFrom cs i s).length
      ∧ ((linesFrom cs i s).getD r default).start ≤ pos
      ∧ pos ≤ ((linesFrom cs i s).getD r default).end_ := by
  induction cs generalizing i s k with
  | nil =>
    refine ⟨0, ?_, by simp [linesFrom], by simpa [linesFrom] using h1,
      by simpa [linesFrom] using h2⟩
    simp only [List.length_nil, Nat.add_zero] at h2
    simp [linesFrom, cursor_get_row_loop, h1, h2]
  | cons ch rest ih =>
    simp only [List.length_cons] at h2
    by_cases h : ch = NEWLINE
    · simp only [linesFrom, h, if_true]
      by_cases hp : pos ≤ i
      · refine ⟨0, ?_, by simp, by simpa using h1, by simpa using hp⟩
        simp [cursor_get_row_loop, h1, hp]
      · obtain ⟨r, hr1, hr2, hr3, hr4⟩ := ih (i + 1) (i + 1) (k + 1) (by omega) (by omega)
          (le_refl _)
        refine ⟨r + 1, ?_, by simpa using hr2, by simpa using hr3, by simpa using hr4⟩
        simp only [cursor_get_row_loop]
        rw [if_neg (by omega), hr1]
        congr 1
        omega
    · simp only [linesFrom, h, if_false]
      exact ih (i + 1) s k h1 (by omega) (by omega)

theorem cursor_get_row_spec (c : Cursor) (buf : List Byte) (hpos : c.pos ≤ buf.length) :
    cursor_get_row c (lineIndex buf) < (lineIndex buf).length
    ∧ ((lineIndex buf).getD (cursor_get_row c (lineIndex buf)) default).start ≤ c.pos
    ∧ c.pos ≤ ((lineIndex buf).getD (cursor_get_row c (lineIndex buf)) default).end_
    ∧ LineWF buf ((lineIndex buf).getD (cursor_get_row c (lineIndex buf)) default) := by
  rw [lineIndex_eq]
  obtain ⟨r, hr1, hr2, hr3, hr4⟩ :=
    get_row_loop_linesFrom buf 0 0 c.pos 0 (Nat.zero_le _) (by omega) (le_refl _)
  have hrow : cursor_get_row c (linesFrom buf 0 0) = r := by
    simp only [cursor_get_row, hr1, Nat.zero_add]
  rw [hrow]
  refine ⟨hr2, hr3, hr4, ?_⟩
  exact linesFrom_wf buf buf 0 0 rfl (le_refl _) (Nat.zero_le _)
    (fun k _ h => absurd h (Nat.not_lt_zero k)) (Or.inl rfl) _ (getD_mem _ r default hr2)

theorem next_word_bounds (e : Editor) (l : Line)
    (h1 : e.c.pos ≤ l.end_) (h2 : l.end_ = e.buffer.length ∨ e.buffer.getD l.end_ 0 = NEWLINE)
    (h3 : l.end_ ≤ e.buffer.length) (hl : e.lines.getD e.c.row default = l) :
    e.c.pos ≤ (editor_cursor_to_next_word e).c.pos
    ∧ (editor_cursor_to_next_word e).c.pos ≤ l.end_ := by
  cases hloop : editor_cursor_to_next_word_loop (e.buffer.drop e.c.pos) e.c.pos false with
  | none =>
    rw [(next_word_none e hloop).2, hl]
    exact ⟨h1, le_refl _⟩
  | some k =>
    obtain ⟨hk, hkmin, heq⟩ := next_word_some e k hloop
    rw [heq]
    refine ⟨hk.1, ?_⟩
    rcases h2 with h2 | h2
    · have := hk.2.1
      simp only
      omega
    · have hlt : l.end_ < e.buffer.length := by
        by_contra hn
        rw [List.getD_eq_default _ _ (by omega)] at h2
        exact absurd h2 (by decide)
      exact hkmin l.end_ ⟨h1, hlt, ⟨l.end_, h1, le_refl _, Or.inr h2⟩, Or.inr h2⟩

theorem prev_word_bounds (e : Editor) (l : Line)
    (h1 : l.start ≤ e.c.pos) (h2 : l.start = 0 ∨ e.buffer.getD (l.start - 1) 0 = NEWLINE)
    (hl : e.lines.getD e.c.row default = l) :
    l.start ≤ (editor_cursor_to_prev_word e).c.pos
    ∧ (editor_cursor_to_prev_word e).c.pos ≤ e.c.pos := by
  cases hloop : editor_cursor_to_prev_word_loop e.buffer e.c.pos false with
  | none =>
    simp only [editor_cursor_to_prev_word, hloop, hl]
    exact ⟨le_refl _, h1⟩
  | some k =>
    obtain ⟨⟨a1, a2, _⟩, hmax⟩ := (prev_word_loop_spec e.buffer e.c.pos false).1 k hloop
    simp only [editor_cursor_to_prev_word, hloop]
    refine ⟨?_, a2⟩
    rcases h2 with h2 | h2
    · omega
    · by_cases h0 : l.start = 0
      · omega
      · exact hmax l.start (by omega) h1 h2

theorem prev_word_eq (e : Editor) :
    editor_cursor_to_prev_word e
      = { e with c := { e.c with pos := (editor_cursor_to_prev_word e).c.pos } } := by
  unfold editor_cursor_to_prev_word
  cases editor_cursor_to_prev_word_loop e.buffer e.c.pos false <;> rfl

theorem next_word_eq (e : Editor) :
    editor_cursor_to_next_word e
      = { e with c := { e.c with pos := (editor_cursor_to_next_word e).c.pos } } := by
  unfold editor_cursor_to_next_word
  cases editor_cursor_to_next_word_loop (e.buffer.drop e.c.pos) e.c.pos false <;> rfl

/-- C10: word navigation stays on the current line.  In every consistent state
(line index recomputed from the buffer, `pos <= buffer length`, `row` the row
derived from `pos`) `editor_cursor_to_next_word` leaves `pos <= pos' <=
line[row].end` and `editor_cursor_to_prev_word` leaves `line[row].start <= pos'
<= pos`.  In particular: Word-right with no separator from the cursor to the
end of the buffer lands at the line end, which is the buffer length; Word-left
at offset 0 changes nothing; Word-right on a newline byte changes nothing;
Word-left at a line start changes nothing. -/
theorem C10_word_navigation (e : Editor)
    (hlines : e.lines = lineIndex e.buffer) (hpos : e.c.pos ≤ e.buffer.length)
    (hrow : e.c.row = cursor_get_row e.c e.lines) :
    (e.c.pos ≤ (editor_cursor_to_next_word e).c.pos
      ∧ (editor_cursor_to_next_word e).c.pos ≤ (e.lines.getD e.c.row default).end_)
    ∧ ((e.lines.getD e.c.row default).start ≤ (editor_cursor_to_prev_word e).c.pos
      ∧ (editor_cursor_to_prev_word e).c.pos ≤ e.c.pos)
    ∧ ((∀ k, e.c.pos ≤ k → k < e.buffer.length → ¬ isSeparator (e.buffer.getD k 0)) →
        (editor_cursor_to_next_word e).c.pos = (e.lines.getD e.c.row default).end_
        ∧ (editor_cursor_to_next_word e).c.pos = e.buffer.length)
    ∧ (e.c.pos = 0 → editor_cursor_to_prev_word e = e)
    ∧ (e.c.pos < e.buffer.length → e.buffer.getD e.c.pos 0 = NEWLINE →
        editor_cursor_to_next_word e = e)
    ∧ (e.c.pos = (e.lines.getD e.c.row default).start → editor_cursor_to_prev_word e = e) := by
  obtain ⟨_, r2, r3, w1, w2, _, w4, w5⟩ := cursor_get_row_spec e.c e.buffer hpos
  rw [← hlines, ← hrow] at r2 r3 w1 w2 w4 w5
  have hn := next_word_bounds e _ r3 w4 w2 rfl
  have hp := prev_word_bounds e _ r2 w5 rfl
  refine ⟨hn, hp, ?_, ?_, ?_, ?_⟩
  · intro hno
    cases hloop : editor_cursor_to_next_word_loop (e.buffer.drop e.c.pos) e.c.pos false with
    | some k =>
      obtain ⟨⟨b1, b2, ⟨j, hj1, hj2, hj3⟩, _⟩, _, _⟩ := next_word_some e k hloop
      exact absurd hj3 (hno j hj1 (by omega))
    | none =>
      rw [(next_word_none e hloop).2]
      refine ⟨rfl, ?_⟩
      rcases w4 with w4 | w4
      · exact w4
      · have hlt : (e.lines.getD e.c.row default).end_ < e.buffer.length := by
          by_contra hn2
          rw [List.getD_eq_default _ _ (by omega)] at w4
          exact absurd w4 (by decide)
        exact absurd (Or.inr w4) (hno _ r3 hlt)
  · intro h0
    have : (editor_cursor_to_prev_word e).c.pos = e.c.pos := by omega
    rw [prev_word_eq e, this]
  · intro hlt hnl
    cases hloop : editor_cursor_to_next_word_loop (e.buffer.drop e.c.pos) e.c.pos false with
    | none =>
      exact absurd ⟨le_refl _, hlt, ⟨e.c.pos, le_refl _, le_refl _, Or.inr hnl⟩, Or.inr hnl⟩
        ((next_word_none e hloop).1 e.c.pos)
    | some k =>
      obtain ⟨hk, hkmin, heq⟩ := next_word_some e k hloop
      have h1 := hkmin e.c.pos
        ⟨le_refl _, hlt, ⟨e.c.pos, le_refl _, le_refl _, Or.inr hnl⟩, Or.inr hnl⟩
      have h2 := hk.1
      have : k = e.c.pos := by omega
      rw [heq, this]
  · intro hst
    have : (editor_cursor_to_prev_word e).c.pos = e.c.pos := by omega
    rw [prev_word_eq e, this]

/-- C10 on buffer "ab cd\nef" with the cursor at 3 (row 0, the line `{0, 5}`):
Word-right lands at 5, the end of the row, and Word-left lands at 2. -/
theorem C10_word_navigation_witness :
    ([{ start := 0, end_ := 5 }, { start := 6, end_ := 8 }]
        = lineIndex [97, 98, 32, 99, 100, 10, 101, 102])
    ∧ (3 ≤ [97, 98, 32, 99, 100, 10, 101, 102].length)
    ∧ (0 = cursor_get_row { pos := 3, row := 0, col := 3 }
              [{ start := 0, end_ := 5 }, { start := 6, end_ := 8 }])
    ∧ (3 ≤ (editor_cursor_to_next_word
          { c := { pos := 3, row := 0, col := 3 },
            buffer := [97, 98, 32, 99, 100, 10, 101, 102],
            lines := [{ start := 0, end_ := 5 }, { start := 6, end_ := 8 }],
            selection := { start := 0, end_ := 0, exists_ := false } }).c.pos
      ∧ (editor_cursor_to_next_word
          { c := { pos := 3, row := 0, col := 3 },
            buffer := [97, 98, 32, 99, 100, 10, 101, 102],
            lines := [{ start := 0, end_ := 5 }, { start := 6, end_ := 8 }],
            selection := { start := 0, end_ := 0, exists_ := false } }).c.pos ≤ 5)
    ∧ (editor_cursor_to_next_word
          { c := { pos := 3, row := 0, col := 3 },
            buffer := [97, 98, 32, 99, 100, 10, 101, 102],
            lines := [{ start := 0, end_ := 5 }, { start := 6, end_ := 8 }],
            selection := { start := 0, end_ := 0, exists_ := false } }).c.pos = 5
    ∧ (editor_cursor_to_prev_word
          { c := { pos := 3, row := 0, col := 3 },
            buffer := [97, 98, 32, 99, 100, 10, 101, 102],
            lines := [{ start := 0, end_ := 5 }, { start := 6, end_ := 8 }],
            selection := { start := 0, end_ := 0, exists_ := false } }).c.pos = 2 :=
  ⟨by decide, by decide, by decide,
   (C10_word_navigation
      { c := { pos := 3, row := 0, col := 3 },
        buffer := [97, 98, 32, 99, 100, 10, 101, 102],
        lines := [{ start := 0, end_ := 5 }, { start := 6, end_ := 8 }],
        selection := { start := 0, end_ := 0, exists_ := false } }
      (by decide) (by decide) (by decide)).1,
   by decide, by decide⟩

/-! ## Row and column of the cursor -/

theorem lineIndex_getD_wf (buf : List Byte) (j : Nat) (hj : j < (lineIndex buf).length) :
    LineWF buf ((lineIndex buf).getD j default) := by
  have h := getD_mem (lineIndex buf) j default hj
  rw [lineIndex_eq] at h ⊢
  exact linesFrom_wf buf buf 0 0 rfl (le_refl _) (Nat.zero_le _)
    (fun k _ h => absurd h (Nat.not_lt_zero k)) (Or.inl rfl) _ h

theorem lineIndex_consecutive (buf : List Byte) (j : Nat) (hj : j + 1 < (lineIndex buf).length) :
    ((lineIndex buf).getD (j + 1) default).start = ((lineIndex buf).getD j default).end_ + 1 := by
  rw [lineIndex_eq] at hj ⊢
  exact linesFrom_consecutive buf 0 0 j hj

theorem lineIndex_separated (buf : List Byte) (j k : Nat) (hjk : j < k)
    (hk : k < (lineIndex buf).length) :
    ((lineIndex buf).getD j default).end_ < ((lineIndex buf).getD k default).start := by
  induction k with
  | zero => omega
  | succ k ih =>
    have hc := lineIndex_consecutive buf k hk
    by_cases hj : j = k
    · subst hj; omega
    · have h1 := ih (by omega) (by omega)
      have h2 := (lineIndex_getD_wf buf k (by omega)).1
      omega

theorem cursor_get_row_loop_some (buf : List Byte) (c : Cursor) (hpos : c.pos ≤ buf.length) :
    cursor_get_row_loop c.pos (lineIndex buf) 0 = some (cursor_get_row c (lineIndex buf)) := by
  rw [lineIndex_eq]
  obtain ⟨r, hr1, _, _, _⟩ :=
    get_row_loop_linesFrom buf 0 0 c.pos 0 (Nat.zero_le _) (by omega) (le_refl _)
  simp only [cursor_get_row, hr1]

theorem cursor_get_row_unique (buf : List Byte) (c : Cursor) (hpos : c.pos ≤ buf.length)
    (j : Nat) (hj : j < (lineIndex buf).length)
    (h1 : ((lineIndex buf).getD j default).start ≤ c.pos)
    (h2 : c.pos ≤ ((lineIndex buf).getD j default).end_) :
    cursor_get_row c (lineIndex buf) = j := by
  obtain ⟨r1, r2, r3, _⟩ := cursor_get_row_spec c buf hpos
  by_contra hne
  rcases Nat.lt_or_gt_of_ne hne with hlt | hgt
  · have := lineIndex_separated buf _ j hlt hj
    omega
  · have := lineIndex_separated buf j _ hgt r1
    omega

/-- C13: for every buffer with its recomputed line index and every cursor offset
`pos <= buffer length` (the length being a `size_t` value), the loop of
`cursor_get_row` returns from inside (the "last line" fallback is not taken),
the returned row is an index of the line index, its closed range
`[start, end]` holds `pos`, no other line's closed range holds `pos`, and the
column `editor_cursor_update` derives, an unsigned subtraction, is exactly
`pos - line[row].start` with `line[row].start <= pos` (no wrap-around) and is at
most `line[row].end - line[row].start`. -/
theorem C13_cursor_row_col (e : Editor) (hlines : e.lines = lineIndex e.buffer)
    (hpos : e.c.pos ≤ e.buffer.length) (hlen : e.buffer.length < SIZE_MOD) :
    cursor_get_row_loop e.c.pos e.lines 0 = some (cursor_get_row e.c e.lines)
    ∧ (editor_cursor_update e).c.row = cursor_get_row e.c e.lines
    ∧ cursor_get_row e.c e.lines < e.lines.length
    ∧ (e.lines.getD (cursor_get_row e.c e.lines) default).start ≤ e.c.pos
    ∧ e.c.pos ≤ (e.lines.getD (cursor_get_row e.c e.lines) default).end_
    ∧ (∀ j, j < e.lines.length → (e.lines.getD j default).start ≤ e.c.pos →
        e.c.pos ≤ (e.lines.getD j default).end_ → j = cursor_get_row e.c e.lines)
    ∧ (editor_cursor_update e).c.col
        = e.c.pos - (e.lines.getD (cursor_get_row e.c e.lines) default).start
    ∧ (editor_cursor_update e).c.col
        ≤ (e.lines.getD (cursor_get_row e.c e.lines) default).end_
            - (e.lines.getD (cursor_get_row e.c e.lines) default).start := by
  obtain ⟨r1, r2, r3, _⟩ := cursor_get_row_spec e.c e.buffer hpos
  rw [← hlines] at r1 r2 r3
  have hcol : (editor_cursor_update e).c.col
      = e.c.pos - (e.lines.getD (cursor_get_row e.c e.lines) default).start := by
    simp only [editor_cursor_update, cursor_get_col]
    exact size_sub_eq _ _ r2 (by omega)
  refine ⟨?_, rfl, r1, r2, r3, ?_, hcol, ?_⟩
  · rw [hlines]; exact cursor_get_row_loop_some e.buffer e.c hpos
  · intro j hj h1 h2
    rw [hlines] at hj h1 h2 ⊢
    exact (cursor_get_row_unique e.buffer e.c hpos j hj h1 h2).symm
  · rw [hcol]; omega

/-- C13 on buffer "ab\ncd" with the cursor at 4: row 1, column 1. -/
theorem C13_cursor_row_col_witness :
    ([{ start := 0, end_ := 2 }, { start := 3, end_ := 5 }] = lineIndex [97, 98, 10, 99, 100])
    ∧ (4 ≤ [97, 98, 10, 99, 100].length)
    ∧ ([97, 98, 10, 99, 100].length < SIZE_MOD)
    ∧ (editor_cursor_update
          { c := { pos := 4, row := 0, col := 0 }, buffer := [97, 98, 10, 99, 100],
            lines := [{ start := 0, end_ := 2 }, { start := 3, end_ := 5 }],
            selection := { start := 0, end_ := 0, exists_ := false } }).c
        = { pos := 4, row := 1, col := 1 }
    ∧ cursor_get_row_loop 4 [{ start := 0, end_ := 2 }, { start := 3, end_ := 5 }] 0
        = some (cursor_get_row { pos := 4, row := 0, col := 0 }
                  [{ start := 0, end_ := 2 }, { start := 3, end_ := 5 }]) :=
  ⟨by decide, by decide, by decide, by decide,
   (C13_cursor_row_col
      { c := { pos := 4, row := 0, col := 0 }, buffer := [97, 98, 10, 99, 100],
        lines := [{ start := 0, end_ := 2 }, { start := 3, end_ := 5 }],
        selection := { start := 0, end_ := 0, exists_ := false } }
      (by decide) (by decide) (by decide)).1⟩

/-! ## Line-up and line-down -/

theorem consistent_row (e : Editor) (h : Consistent e) :
    e.c.row < e.lines.length
    ∧ (e.lines.getD e.c.row default).start ≤ e.c.pos
    ∧ e.c.pos ≤ (e.lines.getD e.c.row default).end_
    ∧ LineWF e.buffer (e.lines.getD e.c.row default)
    ∧ e.c.col = e.c.pos - (e.lines.getD e.c.row default).start := by
  obtain ⟨hl, hp, hn, hr, hc⟩ := h
  obtain ⟨r1, r2, r3, r4⟩ := cursor_get_row_spec e.c e.buffer hp
  rw [← hl, ← hr] at r1 r2 r3 r4
  refine ⟨r1, r2, r3, r4, ?_⟩
  rw [hc]
  simp only [cursor_get_col]
  exact size_sub_eq _ _ r2 (by omega)

theorem vertical_target (e : Editor) (hl : e.lines = lineIndex e.buffer)
    (hn : e.buffer.length < SIZE_MOD) (j p : Nat) (hj : j < e.lines.length)
    (h1 : (e.lines.getD j default).start ≤ p) (h2 : p ≤ (e.lines.getD j default).end_) :
    cursor_get_row { e.c with pos := p } e.lines = j
    ∧ (editor_cursor_update { e with c := { e.c with pos := p } }).c.col
        = p - (e.lines.getD j default).start := by
  have hw := lineIndex_getD_wf e.buffer j (by rw [← hl]; exact hj)
  rw [← hl] at hw
  have hp : p ≤ e.buffer.length := le_trans h2 hw.2.1
  have hrow : cursor_get_row { e.c with pos := p } e.lines = j := by
    rw [hl] at hj h1 h2 ⊢
    exact cursor_get_row_unique e.buffer { e.c with pos := p } hp j hj h1 h2
  refine ⟨hrow, ?_⟩
  simp only [editor_cursor_update, cursor_get_col, hrow]
  exact size_sub_eq _ _ h1 (by omega)

/-- C14: in every consistent state, `editor_cursor_down` on a row that is not
the last puts the cursor at `line[row+1].start + col` when `col` is at most the
length of line `row+1` and at `line[row+1].end` otherwise, changing nothing
else, so that the row derived afterwards is `row+1` and the column derived
afterwards is the smaller of `col` and that length; `editor_cursor_up` does the
same with line `row-1` on a row that is not the first; on the last row
`editor_cursor_down` changes nothing and on the first row `editor_cursor_up`
changes nothing. -/
theorem C14_cursor_up_down (e : Editor) (h : Consistent e) :
    (e.c.row + 1 < e.lines.length →
      editor_cursor_down e
        = { e with c := { e.c with pos :=
              if e.c.col ≤ (e.lines.getD (e.c.row + 1) default).end_
                            - (e.lines.getD (e.c.row + 1) default).start
              then (e.lines.getD (e.c.row + 1) default).start + e.c.col
              else (e.lines.getD (e.c.row + 1) default).end_ } }
      ∧ (editor_cursor_update (editor_cursor_down e)).c.row = e.c.row + 1
      ∧ (editor_cursor_update (editor_cursor_down e)).c.col
          = min e.c.col ((e.lines.getD (e.c.row + 1) default).end_
                          - (e.lines.getD (e.c.row + 1) default).start))
    ∧ (e.c.row + 1 = e.lines.length → editor_cursor_down e = e)
    ∧ (0 < e.c.row →
      editor_cursor_up e
        = { e with c := { e.c with pos :=
              if e.c.col ≤ (e.lines.getD (e.c.row - 1) default).end_
                            - (e.lines.getD (e.c.row - 1) default).start
              then (e.lines.getD (e.c.row - 1) default).start + e.c.col
              else (e.lines.getD (e.c.row - 1) default).end_ } }
      ∧ (editor_cursor_update (editor_cursor_up e)).c.row = e.c.row - 1
      ∧ (editor_cursor_update (editor_cursor_up e)).c.col
          = min e.c.col ((e.lines.getD (e.c.row - 1) default).end_
                          - (e.lines.getD (e.c.row - 1) default).start))
    ∧ (e.c.row = 0 → editor_cursor_up e = e) := by
  obtain ⟨hrow, _, _, _, _⟩ := consistent_row e h
  obtain ⟨hl, hp, hn, hr, hc⟩ := h
  refine ⟨?_, ?_, ?_, ?_⟩
  · intro hnext
    have hw := lineIndex_getD_wf e.buffer (e.c.row + 1) (by rw [← hl]; exact hnext)
    rw [← hl] at hw
    have hs := hw.1
    by_cases hcol : e.c.col ≤ (e.lines.getD (e.c.row + 1) default).end_
        - (e.lines.getD (e.c.row + 1) default).start
    · have heq : editor_cursor_down e = { e with c := { e.c with pos :=
          (e.lines.getD (e.c.row + 1) default).start + e.c.col } } := by
        unfold editor_cursor_down
        rw [if_neg (by omega)]
        simp only [ge_iff_le, hcol, if_true]
      obtain ⟨t1, t2⟩ := vertical_target e hl hn (e.c.row + 1)
        ((e.lines.getD (e.c.row + 1) default).start + e.c.col) hnext (by omega) (by omega)
      rw [if_pos hcol, heq]
      refine ⟨rfl, t1, ?_⟩
      rw [t2, min_eq_left hcol]
      omega
    · have heq : editor_cursor_down e = { e with c := { e.c with pos :=
          (e.lines.getD (e.c.row + 1) default).end_ } } := by
        unfold editor_cursor_down
        rw [if_neg (by omega)]
        simp only [ge_iff_le, hcol, if_false]
      obtain ⟨t1, t2⟩ := vertical_target e hl hn (e.c.row + 1)
        (e.lines.getD (e.c.row + 1) default).end_ hnext hs (le_refl _)
      rw [if_neg hcol, heq]
      refine ⟨rfl, t1, ?_⟩
      rw [t2, min_eq_right (by omega)]
  · intro hlast
    unfold editor_cursor_down
    rw [if_pos (by omega)]
  · intro hprev
    have hw := lineIndex_getD_wf e.buffer (e.c.row - 1) (by rw [← hl]; omega)
    rw [← hl] at hw
    have hs := hw.1
    by_cases hcol : e.c.col ≤ (e.lines.getD (e.c.row - 1) default).end_
        - (e.lines.getD (e.c.row - 1) default).start
    · have heq : editor_cursor_up e = { e with c := { e.c with pos :=
          (e.lines.getD (e.c.row - 1) default).start + e.c.col } } := by
        unfold editor_cursor_up
        rw [if_neg (by omega)]
        simp only [ge_iff_le, hcol, if_true]
      obtain ⟨t1, t2⟩ := vertical_target e hl hn (e.c.row - 1)
        ((e.lines.getD (e.c.row - 1) default).start + e.c.col) (by omega) (by omega) (by omega)
      rw [if_pos hcol, heq]
      refine ⟨rfl, t1, ?_⟩
      rw [t2, min_eq_left hcol]
      omega
    · have heq : editor_cursor_up e = { e with c := { e.c with pos :=
          (e.lines.getD (e.c.row - 1) default).end_ } } := by
        unfold editor_cursor_up
        rw [if_neg (by omega)]
        simp only [ge_iff_le, hcol, if_false]
      obtain ⟨t1, t2⟩ := vertical_target e hl hn (e.c.row - 1)
        (e.lines.getD (e.c.row - 1) default).end_ (by omega) hs (le_refl _)
      rw [if_neg hcol, heq]
      refine ⟨rfl, t1, ?_⟩
      rw [t2, min_eq_right (by omega)]
  · intro h0
    unfold editor_cursor_up
    rw [if_pos h0]

/-- C14 on buffer "abcd\ncd\nef" with the cursor at 3 (row 0, column 3):
Line-down lands at the end of the shorter line "cd", offset 7, row 1, column 2. -/
theorem C14_cursor_up_down_witness :
    Consistent
        { c := { pos := 3, row := 0, col := 3 },
          buffer := [97, 98, 99, 100, 10, 99, 100, 10, 101, 102],
          lines := [{ start := 0, end_ := 4 }, { start := 5, end_ := 7 },
                    { start := 8, end_ := 10 }],
          selection := { start := 0, end_ := 0, exists_ := false } }
    ∧ (editor_cursor_update (editor_cursor_down
        { c := { pos := 3, row := 0, col := 3 },
          buffer := [97, 98, 99, 100, 10, 99, 100, 10, 101, 102],
          lines := [{ start := 0, end_ := 4 }, { start := 5, end_ := 7 },
                    { start := 8, end_ := 10 }],
          selection := { start := 0, end_ := 0, exists_ := false } })).c
        = { pos := 7, row := 1, col := 2 }
    ∧ (editor_cursor_update (editor_cursor_down
        { c := { pos := 3, row := 0, col := 3 },
          buffer := [97, 98, 99, 100, 10, 99, 100, 10, 101, 102],
          lines := [{ start := 0, end_ := 4 }, { start := 5, end_ := 7 },
                    { start := 8, end_ := 10 }],
          selection := { start := 0, end_ := 0, exists_ := false } })).c.row = 0 + 1 :=
  ⟨⟨by decide, by decide, by decide, by decide, by decide⟩, by decide,
   ((C14_cursor_up_down
      { c := { pos := 3, row := 0, col := 3 },
        buffer := [97, 98, 99, 100, 10, 99, 100, 10, 101, 102],
        lines := [{ start := 0, end_ := 4 }, { start := 5, end_ := 7 },
                  { start := 8, end_ := 10 }],
        selection := { start := 0, end_ := 0, exists_ := false } }
      ⟨by decide, by decide, by decide, by decide, by decide⟩).1 (by decide)).2.1⟩

/-! ## Backspace, Delete and Extend -/

theorem remove_char_at_eq (e : Editor) (h : e.c.pos < e.buffer.length) :
    editor_remove_char_at_cursor e
      = { e with buffer := e.buffer.take e.c.pos ++ e.buffer.drop (e.c.pos + 1),
                 lines := lineIndex (e.buffer.take e.c.pos ++ e.buffer.drop (e.c.pos + 1)) } := by
  unfold editor_remove_char_at_cursor
  have h1 := delete_items e.buffer e.c.pos (e.c.pos + 1) (by omega) h
  rw [show e.buffer.length - (e.c.pos + 1 - e.c.pos) = e.buffer.length - 1 by omega] at h1
  rw [if_neg (by omega), if_neg (by omega)]
  simp only [h1, calculate_lines_eq]

/-- C16: with no active selection and the cursor in the buffer, Backspace at
`pos > 0` removes exactly the byte at `pos - 1` and leaves the cursor at
`pos - 1`, Delete at `pos < length` removes exactly the byte at `pos` and leaves
the cursor where it is, and both leave the line index recomputed; Backspace at
`pos = 0` and Delete at `pos = length` (the empty buffer included) leave the
whole state unchanged.  With an active selection both keys run
`editor_selection_delete`. -/
theorem C16_backspace_delete (e : Editor) (hpos : e.c.pos ≤ e.buffer.length) :
    (e.selection.exists_ = false → 0 < e.c.pos →
      editor_update_backspace e
        = { e with buffer := e.buffer.take (e.c.pos - 1) ++ e.buffer.drop e.c.pos,
                   c := { e.c with pos := e.c.pos - 1 },
                   lines := lineIndex (e.buffer.take (e.c.pos - 1) ++ e.buffer.drop e.c.pos) })
    ∧ (e.selection.exists_ = false → e.c.pos < e.buffer.length →
      editor_update_delete e
        = { e with buffer := e.buffer.take e.c.pos ++ e.buffer.drop (e.c.pos + 1),
                   lines := lineIndex (e.buffer.take e.c.pos ++ e.buffer.drop (e.c.pos + 1)) })
    ∧ (e.selection.exists_ = false → e.c.pos = 0 → editor_update_backspace e = e)
    ∧ (e.selection.exists_ = false → e.c.pos = e.buffer.length → editor_update_delete e = e)
    ∧ (e.selection.exists_ = true →
        editor_update_backspace e = editor_selection_delete e
        ∧ editor_update_delete e = editor_selection_delete e) := by
  refine ⟨?_, ?_, ?_, ?_, ?_⟩
  · intro hs h0
    unfold editor_update_backspace
    simp only [hs, Bool.false_eq_true, if_false]
    exact remove_char_before_eq e (by omega) hpos
  · intro hs hlt
    unfold editor_update_delete
    simp only [hs, Bool.false_eq_true, if_false]
    exact remove_char_at_eq e hlt
  · intro hs h0
    unfold editor_update_backspace editor_remove_char_before_cursor
    simp only [hs, Bool.false_eq_true, if_false, h0, if_true]
  · intro hs hend
    unfold editor_update_delete editor_remove_char_at_cursor
    simp only [hs, Bool.false_eq_true, if_false]
    by_cases h0 : e.buffer.length = 0
    · rw [if_pos h0]
    · rw [if_neg h0, if_pos (by omega)]
  · intro hs
    unfold editor_update_backspace editor_update_delete
    simp only [hs, if_true, and_self]

/-- C16 on buffer "ab\ncd" with the cursor at 3 and no selection: Backspace
removes the newline at offset 2, Delete removes the 'c' at offset 3. -/
theorem C16_backspace_delete_witness :
    (3 ≤ [97, 98, 10, 99, 100].length)
    ∧ editor_update_backspace
        { c := { pos := 3, row := 1, col := 0 }, buffer := [97, 98, 10, 99, 100],
          lines := [{ start := 0, end_ := 2 }, { start := 3, end_ := 5 }],
          selection := { start := 0, end_ := 0, exists_ := false } }
      = { c := { pos := 2, row := 1, col := 0 }, buffer := [97, 98, 99, 100],
          lines := [{ start := 0, end_ := 4 }],
          selection := { start := 0, end_ := 0, exists_ := false } }
    ∧ editor_update_delete
        { c := { pos := 3, row := 1, col := 0 }, buffer := [97, 98, 10, 99, 100],
          lines := [{ start := 0, end_ := 2 }, { start := 3, end_ := 5 }],
          selection := { start := 0, end_ := 0, exists_ := false } }
      = { c := { pos := 3, row := 1, col := 0 }, buffer := [97, 98, 10, 100],
          lines := [{ start := 0, end_ := 2 }, { start := 3, end_ := 4 }],
          selection := { start := 0, end_ := 0, exists_ := false } } := by
  refine ⟨by decide, ?_, ?_⟩
  · rw [(C16_backspace_delete _ (by decide)).1 rfl (by decide)]
    decide
  · rw [(C16_backspace_delete _ (by decide)).2.1 rfl (by decide)]
    decide

/-- C18 as stated fails on the empty buffer: there `editor_select` returns at
once, so with no selection active none is started. -/
theorem C18_counterexample :
    (editor_select
        { c := { pos := 0, row := 0, col := 0 }, buffer := [],
          lines := [{ start := 0, end_ := 0 }],
          selection := { start := 0, end_ := 0, exists_ := false } } 0).selection
      = { start := 0, end_ := 0, exists_ := false } := by
  decide

/-- C18, amended: on a non-empty buffer `editor_select` with anchor `a` makes
the selection `{a, pos, true}` when none is active, and sets only `end` to `pos`
when one is active; on the empty buffer it changes nothing.  In every case the
buffer, the line index and the cursor are unchanged. -/
theorem C18_select (e : Editor) (a : Nat) :
    (e.buffer ≠ [] → e.selection.exists_ = false →
      editor_select e a
        = { e with selection := { start := a, end_ := e.c.pos, exists_ := true } })
    ∧ (e.buffer ≠ [] → e.selection.exists_ = true →
      editor_select e a
        = { e with selection := { start := e.selection.start, end_ := e.c.pos,
                                  exists_ := true } })
    ∧ (e.buffer = [] → editor_select e a = e)
    ∧ (editor_select e a).buffer = e.buffer
    ∧ (editor_select e a).lines = e.lines
    ∧ (editor_select e a).c = e.c := by
  have hlen : e.buffer ≠ [] → ¬ e.buffer.length = 0 := fun h h0 => h (List.length_eq_zero.mp h0)
  refine ⟨?_, ?_, ?_, ?_, ?_, ?_⟩
  · intro hne hs
    unfold editor_select
    rw [if_neg (hlen hne)]
    simp [hs]
  · intro hne hs
    unfold editor_select
    rw [if_neg (hlen hne)]
    simp [hs]
  · intro hnil
    unfold editor_select
    rw [if_pos (by simp [hnil])]
  all_goals
    unfold editor_select
    split
    · rfl
    · split <;> rfl

/-! ## Empty-line and page navigation -/

theorem next_empty_line_loop_spec (l : List Line) :
    (∀ j, j < l.length → (l.getD j default).end_ - (l.getD j default).start = 0 →
      (∀ k, k < j → (l.getD k default).end_ - (l.getD k default).start ≠ 0) →
      editor_cursor_to_next_empty_line_loop l = some (l.getD j default))
    ∧ ((∀ j, j < l.length → (l.getD j default).end_ - (l.getD j default).start ≠ 0) →
      editor_cursor_to_next_empty_line_loop l = none) := by
  induction l with
  | nil =>
    refine ⟨fun j hj => by simp at hj, fun _ => rfl⟩
  | cons x xs ih =>
    refine ⟨?_, ?_⟩
    · intro j hj hz hbefore
      cases j with
      | zero =>
        simp only [List.getD_cons_zero] at hz ⊢
        simp only [editor_cursor_to_next_empty_line_loop, hz, if_true]
      | succ j =>
        have h0 := hbefore 0 (by omega)
        simp only [List.getD_cons_zero] at h0
        simp only [List.getD_cons_succ] at hz ⊢
        simp only [editor_cursor_to_next_empty_line_loop, h0, if_false]
        refine ih.1 j (by simpa using hj) hz ?_
        intro k hk
        have := hbefore (k + 1) (by omega)
        simpa using this
    · intro hall
      have h0 := hall 0 (by simp)
      simp only [List.getD_cons_zero] at h0
      simp only [editor_cursor_to_next_empty_line_loop, h0, if_false]
      refine ih.2 ?_
      intro j hj
      have := hall (j + 1) (by simpa using hj)
      simpa using this

theorem prev_empty_line_loop_spec (lines : List Line) (n : Nat) :
    (∀ j, 1 ≤ j → j ≤ n →
      (lines.getD j default).end_ - (lines.getD j default).start = 0 →
      (∀ k, j < k → k ≤ n →
        (lines.getD k default).end_ - (lines.getD k default).start ≠ 0) →
      editor_cursor_to_prev_empty_line_loop lines n = some (lines.getD j default))
    ∧ ((∀ j, 1 ≤ j → j ≤ n →
        (lines.getD j default).end_ - (lines.getD j default).start ≠ 0) →
      editor_cursor_to_prev_empty_line_loop lines n = none) := by
  induction n with
  | zero =>
    refine ⟨fun j h1 h2 => by omega, fun _ => rfl⟩
  | succ n ih =>
    refine ⟨?_, ?_⟩
    · intro j h1 h2 hz hafter
      by_cases hj : j = n + 1
      · subst hj
        simp only [editor_cursor_to_prev_empty_line_loop, hz, if_true]
      · have hn := hafter (n + 1) (by omega) (le_refl _)
        simp only [editor_cursor_to_prev_empty_line_loop, hn, if_false]
        exact ih.1 j h1 (by omega) hz (fun k hk1 hk2 => hafter k hk1 (by omega))
    · intro hall
      have hn := hall (n + 1) (by omega) (le_refl _)
      simp only [editor_cursor_to_prev_empty_line_loop, hn, if_false]
      exact ih.2 (fun j h1 h2 => hall j h1 (by omega))

theorem getD_drop_add {α : Type} (l : List α) (n j : Nat) (d : α) :
    (l.drop n).getD j d = l.getD (n + j) d := by
  simp [List.getD_eq_getElem?_getD, List.getElem?_drop]

theorem lineIndex_size_zero (buf : List Byte) (j : Nat) (hj : j < (lineIndex buf).length) :
    ((lineIndex buf).getD j default).end_ - ((lineIndex buf).getD j default).start = 0
      ↔ ((lineIndex buf).getD j default).start = ((lineIndex buf).getD j default).end_ := by
  have := (lineIndex_getD_wf buf j hj).1
  omega

theorem lineIndex_first_start (buf : List Byte) :
    ((lineIndex buf).getD 0 default).start = 0 := by
  rw [lineIndex_eq]; exact linesFrom_head _ _ _

theorem lineIndex_last_end (buf : List Byte) :
    ((lineIndex buf).getD ((lineIndex buf).length - 1) default).end_ = buf.length := by
  rw [lineIndex_eq]; simpa using linesFrom_last buf 0 0

/-- C19 as stated fails at row 0: on buffer "ab" with the cursor at 1,
prev-empty-line returns at once and leaves the cursor at 1 instead of moving it
to offset 0. -/
theorem C19_counterexample :
    Consistent
        { c := { pos := 1, row := 0, col := 1 }, buffer := [97, 98],
          lines := [{ start := 0, end_ := 2 }],
          selection := { start := 0, end_ := 0, exists_ := false } }
    ∧ (editor_cursor_to_prev_empty_line
        { c := { pos := 1, row := 0, col := 1 }, buffer := [97, 98],
          lines := [{ start := 0, end_ := 2 }],
          selection := { start := 0, end_ := 0, exists_ := false } }).c.pos = 1 :=
  ⟨⟨by decide, by decide, by decide, by decide, by decide⟩, by decide⟩

/-- C19, amended: in a consistent state with the cursor on row `r`,
next-empty-line moves the cursor to the start of the first line after `r` with
`start = end`, or to the start of the last line if there is none (also for
`r` the last row); prev-empty-line from a row `r >= 1` moves the cursor to the
start of the nearest line before `r` with `start = end`, or to offset 0, the
start of the first line, if there is none; prev-empty-line from row 0 changes
nothing. -/
theorem C19_empty_line (e : Editor) (h : Consistent e) :
    (∀ j, e.c.row < j → j < e.lines.length →
      (e.lines.getD j default).start = (e.lines.getD j default).end_ →
      (∀ k, e.c.row < k → k < j →
        (e.lines.getD k default).start ≠ (e.lines.getD k default).end_) →
      editor_cursor_to_next_empty_line e
        = { e with c := { e.c with pos := (e.lines.getD j default).start } })
    ∧ ((∀ j, e.c.row < j → j < e.lines.length →
        (e.lines.getD j default).start ≠ (e.lines.getD j default).end_) →
      editor_cursor_to_next_empty_line e
        = { e with c := { e.c with pos :=
              (e.lines.getD (e.lines.length - 1) default).start } })
    ∧ (1 ≤ e.c.row → ∀ j, j < e.c.row →
      (e.lines.getD j default).start = (e.lines.getD j default).end_ →
      (∀ k, j < k → k < e.c.row →
        (e.lines.getD k default).start ≠ (e.lines.getD k default).end_) →
      editor_cursor_to_prev_empty_line e
        = { e with c := { e.c with pos := (e.lines.getD j default).start } })
    ∧ (1 ≤ e.c.row →
      (∀ j, j < e.c.row →
        (e.lines.getD j default).start ≠ (e.lines.getD j default).end_) →
      editor_cursor_to_prev_empty_line e = { e with c := { e.c with pos := 0 } })
    ∧ (e.c.row = 0 → editor_cursor_to_prev_empty_line e = e) := by
  obtain ⟨hrow, _, _, _, _⟩ := consistent_row e h
  obtain ⟨hl, hp, hn, hr, hc⟩ := h
  have hsz : ∀ j, j < e.lines.length →
      ((e.lines.getD j default).end_ - (e.lines.getD j default).start = 0
        ↔ (e.lines.getD j default).start = (e.lines.getD j default).end_) := by
    intro j hj
    rw [hl] at hj ⊢
    exact lineIndex_size_zero e.buffer j hj
  have hfirst : (e.lines.getD 0 default).start = 0 := by
    rw [hl]; exact lineIndex_first_start _
  refine ⟨?_, ?_, ?_, ?_, ?_⟩
  · intro j hj1 hj2 hz hbefore
    have hloop := (next_empty_line_loop_spec (e.lines.drop (e.c.row + 1))).1
      (j - (e.c.row + 1)) (by simp; omega)
      (by rw [getD_drop_add, show e.c.row + 1 + (j - (e.c.row + 1)) = j by omega]
          exact (hsz j hj2).mpr hz)
      (by
        intro k hk
        rw [getD_drop_add]
        intro hzero
        exact hbefore (e.c.row + 1 + k) (by omega) (by omega)
          ((hsz _ (by omega)).mp hzero))
    rw [getD_drop_add, show e.c.row + 1 + (j - (e.c.row + 1)) = j by omega] at hloop
    simp only [editor_cursor_to_next_empty_line, hloop]
  · intro hall
    have hloop := (next_empty_line_loop_spec (e.lines.drop (e.c.row + 1))).2
      (by
        intro k hk
        simp only [List.length_drop] at hk
        rw [getD_drop_add]
        intro hzero
        exact hall (e.c.row + 1 + k) (by omega) (by omega)
          ((hsz _ (by omega)).mp hzero))
    simp only [editor_cursor_to_next_empty_line, hloop]
  · intro h1 j hj hz hafter
    unfold editor_cursor_to_prev_empty_line
    rw [if_neg (by omega)]
    by_cases hj0 : j = 0
    · subst hj0
      have hloop := (prev_empty_line_loop_spec e.lines (e.c.row - 1)).2
        (by
          intro k hk1 hk2 hzero
          exact hafter k (by omega) (by omega) ((hsz k (by omega)).mp hzero))
      simp only [hloop]
    · have hloop := (prev_empty_line_loop_spec e.lines (e.c.row - 1)).1 j (by omega) (by omega)
        ((hsz j (by omega)).mpr hz)
        (by
          intro k hk1 hk2 hzero
          exact hafter k hk1 (by omega) ((hsz k (by omega)).mp hzero))
      simp only [hloop]
  · intro h1 hall
    unfold editor_cursor_to_prev_empty_line
    rw [if_neg (by omega)]
    have hloop := (prev_empty_line_loop_spec e.lines (e.c.row - 1)).2
      (by
        intro k hk1 hk2 hzero
        exact hall k (by omega) ((hsz k (by omega)).mp hzero))
    simp only [hloop, hfirst]
  · intro h0
    unfold editor_cursor_to_prev_empty_line
    rw [if_pos (Or.inl h0)]

/-- C19 (amended) on buffer "ab\n\ncd\nef" with the cursor at 7 (row 3):
prev-empty-line lands on the empty line 1, offset 3. -/
theorem C19_empty_line_witness :
    Consistent
        { c := { pos := 7, row := 3, col := 0 },
          buffer := [97, 98, 10, 10, 99, 100, 10, 101, 102],
          lines := [{ start := 0, end_ := 2 }, { start := 3, end_ := 3 },
                    { start := 4, end_ := 6 }, { start := 7, end_ := 9 }],
          selection := { start := 0, end_ := 0, exists_ := false } }
    ∧ editor_cursor_to_prev_empty_line
        { c := { pos := 7, row := 3, col := 0 },
          buffer := [97, 98, 10, 10, 99, 100, 10, 101, 102],
          lines := [{ start := 0, end_ := 2 }, { start := 3, end_ := 3 },
                    { start := 4, end_ := 6 }, { start := 7, end_ := 9 }],
          selection := { start := 0, end_ := 0, exists_ := false } }
      = { c := { pos := 3, row := 3, col := 0 },
          buffer := [97, 98, 10, 10, 99, 100, 10, 101, 102],
          lines := [{ start := 0, end_ := 2 }, { start := 3, end_ := 3 },
                    { start := 4, end_ := 6 }, { start := 7, end_ := 9 }],
          selection := { start := 0, end_ := 0, exists_ := false } } := by
  refine ⟨⟨by decide, by decide, by decide, by decide, by decide⟩, ?_⟩
  refine (C19_empty_line _ ⟨by decide, by decide, by decide, by decide, by decide⟩).2.2.1
    (by decide) 1 (by decide) (by decide) ?_
  intro k hk1 hk2
  have hk : k = 2 := by
    simp only at hk2
    omega
  subst hk
  decide

theorem goto_line_ok (e : Editor) (n : Nat) (h1 : 1 ≤ n) (h2 : n < e.lines.length) :
    editor_cursor_to_line_number e n
      = (true, { e with c := { e.c with pos := (e.lines.getD (n - 1) default).start } }) := by
  unfold editor_cursor_to_line_number
  rw [if_neg (by omega)]

theorem goto_line_fail (e : Editor) (n : Nat) (h : n < 1 ∨ n ≥ e.lines.length) :
    editor_cursor_to_line_number e n = (false, e) := by
  unfold editor_cursor_to_line_number
  rw [if_pos h]

theorem page_up_arg (r : Nat) (hr : r + 1 < SIZE_MOD) :
    (10 ≤ r → size_sub ((r + 1) % SIZE_MOD) 10 = r - 9)
    ∧ (r = 9 → size_sub ((r + 1) % SIZE_MOD) 10 = 0)
    ∧ (r < 9 → size_sub ((r + 1) % SIZE_MOD) 10 = SIZE_MOD - 9 + r) := by
  simp only [size_sub, SIZE_MOD] at *
  norm_num at *
  omega

/-- C20: in a state whose line index is the recomputed one, with the cursor on
row `r` of the index (and the array of 16-byte `Line` records within the
address space).  Page-up calls goto-line with `r + 1 - 10` computed modulo
`2 ^ 64`: the argument is `r - 9` for `r >= 10`, zero for `r = 9` and the
wrapped value `2 ^ 64 - 9 + r`, which is at least the line count, for `r < 9`;
so the cursor goes to `line[r-10].start` for `r >= 10` and to offset 0 for
`r < 10`.  Page-down calls goto-line with `r + 11`: the cursor goes to
`line[r+10].start` when `r + 11 < lineCount` and to the end of the last line,
which is the buffer length, otherwise.  Nothing but the cursor offset
changes. -/
theorem C20_page_up_down (e : Editor) (hl : e.lines = lineIndex e.buffer)
    (hrow : e.c.row < e.lines.length) (hmem : 16 * e.lines.length < SIZE_MOD) :
    (10 ≤ e.c.row →
      size_sub ((e.c.row + 1) % SIZE_MOD) 10 = e.c.row - 9
      ∧ editor_update_page_up e
          = { e with c := { e.c with pos := (e.lines.getD (e.c.row - 10) default).start } })
    ∧ (e.c.row < 10 →
      (size_sub ((e.c.row + 1) % SIZE_MOD) 10 = 0
        ∨ size_sub ((e.c.row + 1) % SIZE_MOD) 10 ≥ e.lines.length)
      ∧ editor_update_page_up e = { e with c := { e.c with pos := 0 } })
    ∧ (e.c.row + 11 < e.lines.length →
      editor_update_page_down e
        = { e with c := { e.c with pos := (e.lines.getD (e.c.row + 10) default).start } })
    ∧ (e.lines.length ≤ e.c.row + 11 →
      editor_update_page_down e = { e with c := { e.c with pos := e.buffer.length } }
      ∧ (e.lines.getD (e.lines.length - 1) default).end_ = e.buffer.length) := by
  have hS : SIZE_MOD = 18446744073709551616 := by norm_num [SIZE_MOD]
  obtain ⟨a1, a2, a3⟩ := page_up_arg e.c.row (by omega)
  have hfirst : (e.lines.getD 0 default).start = 0 := by
    rw [hl]; exact lineIndex_first_start _
  have hlast : (e.lines.getD (e.lines.length - 1) default).end_ = e.buffer.length := by
    rw [hl]; exact lineIndex_last_end _
  have hdown : (e.c.row + 1 + 10) % SIZE_MOD = e.c.row + 11 := by
    rw [Nat.mod_eq_of_lt (by omega)]
  refine ⟨?_, ?_, ?_, ?_⟩
  · intro h10
    refine ⟨a1 h10, ?_⟩
    unfold editor_update_page_up
    rw [a1 h10, goto_line_ok e _ (by omega) (by omega)]
    simp only [Bool.not_true, Bool.false_eq_true, if_false]
    rw [show e.c.row - 9 - 1 = e.c.row - 10 by omega]
  · intro h10
    by_cases h9 : e.c.row = 9
    · refine ⟨Or.inl (a2 h9), ?_⟩
      unfold editor_update_page_up
      rw [a2 h9, goto_line_fail e _ (by omega)]
      simp only [Bool.not_false, if_true, editor_cursor_to_first_line, hfirst]
    · have hw := a3 (by omega)
      refine ⟨Or.inr (by omega), ?_⟩
      unfold editor_update_page_up
      rw [goto_line_fail e _ (by omega)]
      simp only [Bool.not_false, if_true, editor_cursor_to_first_line, hfirst]
  · intro h11
    unfold editor_update_page_down
    rw [hdown, goto_line_ok e _ (by omega) h11]
    simp only [Bool.not_true, Bool.false_eq_true, if_false]
    rw [show e.c.row + 11 - 1 = e.c.row + 10 by omega]
  · intro h11
    refine ⟨?_, hlast⟩
    unfold editor_update_page_down
    rw [hdown, goto_line_fail e _ (by omega)]
    simp only [Bool.not_false, if_true, editor_cursor_to_last_line, hlast]

/-- C20 on a buffer of three lines "a\nb\nc" with the cursor on row 2: the
page-up argument `2 + 1 - 10` wraps to `2 ^ 64 - 7`, goto-line fails and the
cursor goes to offset 0. -/
theorem C20_page_up_down_witness :
    ([{ start := 0, end_ := 1 }, { start := 2, end_ := 3 }, { start := 4, end_ := 5 }]
        = lineIndex [97, 10, 98, 10, 99])
    ∧ (2 < [{ start := 0, end_ := 1 }, { start := 2, end_ := 3 },
            ({ start := 4, end_ := 5 } : Line)].length)
    ∧ size_sub ((2 + 1) % SIZE_MOD) 10 = 18446744073709551609
    ∧ editor_update_page_up
        { c := { pos := 4, row := 2, col := 0 }, buffer := [97, 10, 98, 10, 99],
          lines := [{ start := 0, end_ := 1 }, { start := 2, end_ := 3 },
                    { start := 4, end_ := 5 }],
          selection := { start := 0, end_ := 0, exists_ := false } }
      = { c := { pos := 0, row := 2, col := 0 }, buffer := [97, 10, 98, 10, 99],
          lines := [{ start := 0, end_ := 1 }, { start := 2, end_ := 3 },
                    { start := 4, end_ := 5 }],
          selection := { start := 0, end_ := 0, exists_ := false } } :=
  ⟨by decide, by decide, by decide,
   ((C20_page_up_down
      { c := { pos := 4, row := 2, col := 0 }, buffer := [97, 10, 98, 10, 99],
        lines := [{ start := 0, end_ := 1 }, { start := 2, end_ := 3 },
                  { start := 4, end_ := 5 }],
        selection := { start := 0, end_ := 0, exists_ := false } }
      (by decide) (by decide) (by decide)).2.1 (by decide)).2⟩

/-! ## Copy, cut and paste -/

theorem strncpy_eq_take (src : List Byte) (n : Nat) (hn : n ≤ src.length)
    (hz : 0 ∉ src.take n) : strncpy src n = src.take n := by
  induction src generalizing n with
  | nil =>
    have : n = 0 := by simpa using hn
    subst this
    rfl
  | cons b rest ih =>
    cases n with
    | zero => rfl
    | succ n =>
      simp only [List.take_succ_cons, List.mem_cons, not_or] at hz
      have hb : ¬ b = 0 := fun h => hz.1 h.symm
      simp only [strncpy, hb, if_false, List.take_succ_cons]
      rw [ih n (by simpa using hn) hz.2]

theorem takeWhile_ne_zero (t rest : List Byte) (hz : 0 ∉ t) :
    (t ++ 0 :: rest).takeWhile (fun b => b != 0) = t := by
  induction t with
  | nil => simp [List.takeWhile]
  | cons b t ih =>
    simp only [List.mem_cons, not_or] at hz
    have hb : (b != 0) = true := by
      simp only [bne_iff_ne, ne_eq]
      exact fun h => hz.1 h.symm
    rw [List.cons_append, List.takeWhile_cons, hb, if_pos rfl, ih hz.2]

theorem takeWhile_no_zero (t : List Byte) (hz : 0 ∉ t) :
    t.takeWhile (fun b => b != 0) = t := by
  induction t with
  | nil => rfl
  | cons b t ih =>
    simp only [List.mem_cons, not_or] at hz
    have hb : (b != 0) = true := by
      simp only [bne_iff_ne, ne_eq]
      exact fun h => hz.1 h.symm
    rw [List.takeWhile_cons, hb, if_pos rfl, ih hz.2]

theorem c_string_terminated (t : List Byte) (hz : 0 ∉ t) : c_string (t ++ [0]) = t := by
  unfold c_string strlen
  rw [takeWhile_ne_zero t [] hz]
  simp

theorem c_string_no_zero (t : List Byte) (hz : 0 ∉ t) : t.take (strlen t) = t := by
  unfold strlen
  rw [takeWhile_no_zero t hz]
  simp

theorem copy_range (buf : List Byte) (lo hi : Nat) (h2 : hi ≤ buf.length)
    (hz : 0 ∉ buf) :
    c_string (strncpy (buf.drop lo) (hi - lo) ++ [0]) = (buf.drop lo).take (hi - lo) := by
  have hz2 : 0 ∉ (buf.drop lo).take (hi - lo) :=
    fun h => hz (List.mem_of_mem_drop (List.mem_of_mem_take h))
  rw [strncpy_eq_take _ _ (by simp; omega) hz2]
  exact c_string_terminated _ hz2

theorem strncpy_zero (l : List Byte) : strncpy l 0 = [] := by
  cases l <;> rfl

theorem copy_selection_int (e : Editor) (hex : e.selection.exists_ = true) :
    editor_copy e
      = c_string
          (strncpy
            (e.buffer.drop (int_to_size (to_int (min e.selection.start e.selection.end_))))
            (int_to_size (wrap_int (to_int (max e.selection.start e.selection.end_)
                                      - to_int (min e.selection.start e.selection.end_))))
            ++ [0]) := by
  unfold editor_copy
  simp only [hex, if_true]
  by_cases h : e.selection.end_ > e.selection.start
  · simp only [h, if_true]
    rw [min_eq_left (by omega), max_eq_right (by omega)]
  · simp only [h, if_false]
    rw [min_eq_right (by omega), max_eq_left (by omega)]

theorem copy_selection (e : Editor) (hex : e.selection.exists_ = true)
    (hs : e.selection.start ≤ e.buffer.length) (he : e.selection.end_ ≤ e.buffer.length)
    (hz : 0 ∉ e.buffer) (hb : e.buffer.length < INT_LIMIT) :
    editor_copy e
      = (e.buffer.drop (min e.selection.start e.selection.end_)).take
          (max e.selection.start e.selection.end_ - min e.selection.start e.selection.end_) := by
  rw [copy_selection_int e hex]
  have hlo : min e.selection.start e.selection.end_ ≤ max e.selection.start e.selection.end_ := by
    omega
  have hhi : max e.selection.start e.selection.end_ ≤ e.buffer.length := max_le hs he
  rw [to_int_exact _ (by omega), to_int_exact _ (by omega), int_to_size_exact _ (by omega),
    int_sub_exact _ _ hlo (by omega)]
  exact copy_range e.buffer _ _ hhi hz

theorem cut_selection_eq (e : Editor) (hex : e.selection.exists_ = true) :
    editor_cut e = (editor_copy e, editor_selection_delete e) := by
  unfold editor_cut
  simp only [hex, if_true]

/-- C11 as stated fails for offsets that an `int` does not hold: on a buffer of
`2^32` bytes 'a' (no zero byte) with everything selected (`{0, 2^32}`, both
offsets at most the buffer length) the `int` locals `start`, `end` and `length`
of `editor_copy` are all 0, so the clipboard gets the empty text, and
`editor_selection_delete` removes nothing: the buffer keeps its `2^32` bytes. -/
theorem C11_counterexample :
    (0 ∉ List.replicate 4294967296 (97 : Byte))
    ∧ (4294967296 ≤ (List.replicate 4294967296 (97 : Byte)).length)
    ∧ (editor_cut
        { c := { pos := 0, row := 0, col := 0 }, buffer := List.replicate 4294967296 97,
          lines := [{ start := 0, end_ := 4294967296 }],
          selection := { start := 0, end_ := 4294967296, exists_ := true } }).1 = []
    ∧ (editor_cut
        { c := { pos := 0, row := 0, col := 0 }, buffer := List.replicate 4294967296 97,
          lines := [{ start := 0, end_ := 4294967296 }],
          selection := { start := 0, end_ := 4294967296, exists_ := true } }).2.buffer.length
      = 4294967296 := by
  have hlen : int_to_size (wrap_int (to_int (max 0 4294967296) - to_int (min 0 4294967296))) = 0 := by
    decide
  refine ⟨fun h => absurd (List.eq_of_mem_replicate h) (by decide), ?_, ?_, ?_⟩
  · rw [List.length_replicate]
  · rw [cut_selection_eq _ rfl]
    dsimp only
    rw [copy_selection_int _ rfl]
    dsimp only
    rw [hlen, strncpy_zero]
    decide
  · rw [cut_selection_eq _ rfl]
    dsimp only
    rw [selection_delete_length]
    dsimp only
    rw [hlen, List.length_replicate]
    decide

/-- C11, amended: for every buffer shorter than `2^31` bytes without zero bytes
and every active selection whose offsets are at most the buffer length,
`editor_cut` hands the clipboard exactly the bytes `buffer[low..high)` (`low`
the smaller, `high` the larger selection offset) and leaves the state of
`editor_selection_delete`: those bytes removed, the cursor at `low`, the
selection inactive, the line index recomputed. -/
theorem C11_cut_selection (e : Editor) (hex : e.selection.exists_ = true)
    (hs : e.selection.start ≤ e.buffer.length) (he : e.selection.end_ ≤ e.buffer.length)
    (hz : 0 ∉ e.buffer) (hb : e.buffer.length < INT_LIMIT) :
    (editor_cut e).1
        = (e.buffer.drop (min e.selection.start e.selection.end_)).take
            (max e.selection.start e.selection.end_ - min e.selection.start e.selection.end_)
    ∧ (editor_cut e).2 = editor_selection_delete e
    ∧ (editor_cut e).2.buffer
        = e.buffer.take (min e.selection.start e.selection.end_)
            ++ e.buffer.drop (max e.selection.start e.selection.end_)
    ∧ (editor_cut e).2.c.pos = min e.selection.start e.selection.end_
    ∧ (editor_cut e).2.selection = { start := 0, end_ := 0, exists_ := false }
    ∧ (editor_cut e).2.lines = lineIndex (editor_cut e).2.buffer := by
  have h1 : (editor_cut e).1 = editor_copy e := by
    unfold editor_cut
    simp only [hex, if_true]
  have h2 : (editor_cut e).2 = editor_selection_delete e := by
    unfold editor_cut
    simp only [hex, if_true]
  rw [h1, h2, copy_selection e hex hs he hz hb, selection_delete_eq e hs he hb]
  exact ⟨rfl, rfl, rfl, rfl, rfl, rfl⟩

/-- C11 (amended) at the scenario of the spec: buffer "xy" with the selection
`{0, 2, exists}`; the clipboard gets "xy" and the buffer is left empty with the
single line `{0, 0}`. -/
theorem C11_cut_selection_witness :
    (0 ∉ ([120, 121] : List Byte))
    ∧ (([120, 121] : List Byte).length < INT_LIMIT)
    ∧ (editor_cut
        { c := { pos := 2, row := 0, col := 2 }, buffer := [120, 121],
          lines := [{ start := 0, end_ := 2 }],
          selection := { start := 0, end_ := 2, exists_ := true } }).1
      = ([120, 121] : List Byte)
    ∧ (editor_cut
        { c := { pos := 2, row := 0, col := 2 }, buffer := [120, 121],
          lines := [{ start := 0, end_ := 2 }],
          selection := { start := 0, end_ := 2, exists_ := true } }).2
      = { c := { pos := 0, row := 0, col := 2 }, buffer := [],
          lines := [{ start := 0, end_ := 0 }],
          selection := { start := 0, end_ := 0, exists_ := false } } := by
  refine ⟨by decide, by decide, ?_, by decide⟩
  rw [(C11_cut_selection _ rfl (by decide) (by decide) (by decide) (by decide)).1]
  decide

theorem insert_fold (t : List Byte) (e : Editor) (h : e.c.pos ≤ e.buffer.length) :
    t.foldl editor_insert_char_at_cursor e
      = { e with buffer := e.buffer.take e.c.pos ++ t ++ e.buffer.drop e.c.pos,
                 c := { e.c with pos := e.c.pos + t.length },
                 lines := if t = [] then e.lines
                          else lineIndex (e.buffer.take e.c.pos ++ t ++ e.buffer.drop e.c.pos) } := by
  induction t generalizing e with
  | nil => simp
  | cons a t ih =>
    rw [List.foldl_cons, insert_char_eq e a h, ih _ (by simp; omega)]
    have hl : (e.buffer.take e.c.pos).length = e.c.pos := by simp [h]
    have h1 : (e.buffer.take e.c.pos ++ a :: e.buffer.drop e.c.pos).take (e.c.pos + 1)
        = e.buffer.take e.c.pos ++ [a] := by
      rw [show e.buffer.take e.c.pos ++ a :: e.buffer.drop e.c.pos
            = (e.buffer.take e.c.pos ++ [a]) ++ e.buffer.drop e.c.pos by simp]
      apply List.take_left'
      simp [h]
    have h2 : (e.buffer.take e.c.pos ++ a :: e.buffer.drop e.c.pos).drop (e.c.pos + 1)
        = e.buffer.drop e.c.pos := by
      rw [show e.buffer.take e.c.pos ++ a :: e.buffer.drop e.c.pos
            = (e.buffer.take e.c.pos ++ [a]) ++ e.buffer.drop e.c.pos by simp]
      apply List.drop_left'
      simp [h]
    simp only [h1, h2]
    have h3 : e.buffer.take e.c.pos ++ [a] ++ t ++ e.buffer.drop e.c.pos
        = e.buffer.take e.c.pos ++ a :: t ++ e.buffer.drop e.c.pos := by simp
    by_cases ht : t = []
    · subst ht
      simp
    · simp only [ht, if_false, h3, List.length_cons, reduceCtorEq]
      congr 2
      omega

theorem selection_delete_exists (e : Editor) :
    (editor_selection_delete e).selection.exists_ = false := by
  unfold editor_selection_delete editor_selection_clear
  rw [calculate_lines_eq]

/-- C15 as stated fails for an empty clipboard text when a selection is active:
on buffer "ab" with everything selected, pasting the empty text still deletes
the selection and leaves the empty buffer. -/
theorem C15_counterexample :
    (editor_paste
        { c := { pos := 2, row := 0, col := 2 }, buffer := [97, 98],
          lines := [{ start := 0, end_ := 2 }],
          selection := { start := 0, end_ := 2, exists_ := true } } [])
      = { c := { pos := 0, row := 0, col := 2 }, buffer := [],
          lines := [{ start := 0, end_ := 0 }],
          selection := { start := 0, end_ := 0, exists_ := false } } := by
  decide

/-- C15, amended: for every state with `pos = p <= buffer length` and no active
selection, and every clipboard text `t` without zero bytes, `editor_paste`
leaves the buffer `buffer[0..p) ++ t ++ buffer[p..)` and the cursor at
`p + |t|`; the line index is the recomputation over the new buffer when `t` is
not empty, and with an empty `t` the whole state is unchanged.  With an active
selection `editor_paste` is `editor_selection_delete` followed by the paste
into the state it leaves; an empty `t` then leaves the state of
`editor_selection_delete`. -/
theorem C15_paste (e : Editor) (t : List Byte) (hz : 0 ∉ t) :
    (e.selection.exists_ = false → e.c.pos ≤ e.buffer.length →
      (editor_paste e t).buffer = e.buffer.take e.c.pos ++ t ++ e.buffer.drop e.c.pos
      ∧ (editor_paste e t).c.pos = e.c.pos + t.length
      ∧ (t ≠ [] → (editor_paste e t).lines = lineIndex (editor_paste e t).buffer)
      ∧ (t = [] → editor_paste e t = e))
    ∧ (e.selection.exists_ = true →
      editor_paste e t = editor_paste (editor_selection_delete e) t
      ∧ (t = [] → editor_paste e t = editor_selection_delete e)) := by
  have hstr := c_string_no_zero t hz
  refine ⟨?_, ?_⟩
  · intro hs hp
    have heq : editor_paste e t = t.foldl editor_insert_char_at_cursor e := by
      unfold editor_paste
      simp only [hs, Bool.false_eq_true, if_false, hstr]
    rw [heq, insert_fold t e hp]
    refine ⟨rfl, rfl, ?_, ?_⟩
    · intro hne
      simp only [hne, if_false]
    · intro hnil
      subst hnil
      simp
  · intro hs
    have h1 : editor_paste e t
        = t.foldl editor_insert_char_at_cursor (editor_selection_delete e) := by
      unfold editor_paste
      simp only [hs, if_true, hstr]
    have h2 : editor_paste (editor_selection_delete e) t
        = t.foldl editor_insert_char_at_cursor (editor_selection_delete e) := by
      unfold editor_paste
      simp only [selection_delete_exists, Bool.false_eq_true, if_false, hstr]
    refine ⟨by rw [h1, h2], ?_⟩
    intro hnil
    subst hnil
    rw [h1]
    rfl

/-- C15 (amended) on buffer "ab" with the cursor at 1 and no selection: pasting
"XY\n" gives "aXY\nb", the cursor at 4 and the lines `{0,3}`, `{4,5}`. -/
theorem C15_paste_witness :
    (0 ∉ ([88, 89, 10] : List Byte))
    ∧ (1 ≤ [97, 98].length)
    ∧ editor_paste
        { c := { pos := 1, row := 0, col := 1 }, buffer := [97, 98],
          lines := [{ start := 0, end_ := 2 }],
          selection := { start := 0, end_ := 0, exists_ := false } } [88, 89, 10]
      = { c := { pos := 4, row := 0, col := 1 }, buffer := [97, 88, 89, 10, 98],
          lines := [{ start := 0, end_ := 3 }, { start := 4, end_ := 5 }],
          selection := { start := 0, end_ := 0, exists_ := false } }
    ∧ (editor_paste
        { c := { pos := 1, row := 0, col := 1 }, buffer := [97, 98],
          lines := [{ start := 0, end_ := 2 }],
          selection := { start := 0, end_ := 0, exists_ := false } } [88, 89, 10]).buffer
      = [97, 98].take 1 ++ [88, 89, 10] ++ [97, 98].drop 1 :=
  ⟨by decide, by decide, by decide,
   ((C15_paste
      { c := { pos := 1, row := 0, col := 1 }, buffer := [97, 98],
        lines := [{ start := 0, end_ := 2 }],
        selection := { start := 0, end_ := 0, exists_ := false } } [88, 89, 10]
      (by decide)).1 rfl (by decide)).1⟩

/-! ## Word deletion -/

theorem word_bounds (e : Editor) (h : Consistent e) :
    e.c.pos ≤ (editor_cursor_to_next_word e).c.pos
    ∧ (editor_cursor_to_next_word e).c.pos ≤ e.buffer.length
    ∧ (editor_cursor_to_prev_word e).c.pos ≤ e.c.pos := by
  obtain ⟨_, r2, r3, w, _⟩ := consistent_row e h
  obtain ⟨w1, w2, _, w4, w5⟩ := w
  have hn := next_word_bounds e _ r3 w4 w2 rfl
  have hp := prev_word_bounds e _ r2 w5 rfl
  exact ⟨hn.1, le_trans hn.2 w2, hp.2⟩

theorem select_then_delete (e : Editor) (a : Nat) (ha : a ≤ e.buffer.length)
    (hp : e.c.pos ≤ e.buffer.length)
    (hsel : e.selection = { start := 0, end_ := 0, exists_ := false })
    (hI : e.buffer.length < INT_LIMIT) :
    editor_selection_delete (editor_select e a)
      = { e with
            buffer := e.buffer.take (min a e.c.pos) ++ e.buffer.drop (max a e.c.pos),
            c := { e.c with pos := min a e.c.pos },
            selection := { start := 0, end_ := 0, exists_ := false },
            lines := lineIndex (e.buffer.take (min a e.c.pos)
                                  ++ e.buffer.drop (max a e.c.pos)) } := by
  by_cases hb : e.buffer.length = 0
  · have hsel2 : editor_select e a = e := by
      unfold editor_select
      rw [if_pos hb]
    have ha0 : a = 0 := by omega
    have hp0 : e.c.pos = 0 := by omega
    rw [hsel2, selection_delete_eq e (by rw [hsel]; exact Nat.zero_le _)
      (by rw [hsel]; exact Nat.zero_le _) hI]
    simp only [hsel, ha0, hp0, min_self, max_self]
  · have hsel2 : editor_select e a
        = { e with selection := { start := a, end_ := e.c.pos, exists_ := true } } := by
      unfold editor_select
      rw [if_neg hb]
      simp [hsel]
    rw [hsel2, selection_delete_eq _ ha hp (by exact hI)]

/-- C17 as stated fails when a selection is active: on buffer "ab cd" with the
selection `{0, 5, exists}` and the cursor at 5, Word-left would move to 2, but
`editor_remove_word_before_cursor` only moves the selection end to 2 and
deletes `[0, 2)`, leaving " cd" and the cursor at 0 instead of "ab" and the
cursor at 2. -/
theorem C17_counterexample :
    Consistent
        { c := { pos := 5, row := 0, col := 5 }, buffer := [97, 98, 32, 99, 100],
          lines := [{ start := 0, end_ := 5 }],
          selection := { start := 0, end_ := 5, exists_ := true } }
    ∧ (editor_cursor_to_prev_word
        { c := { pos := 5, row := 0, col := 5 }, buffer := [97, 98, 32, 99, 100],
          lines := [{ start := 0, end_ := 5 }],
          selection := { start := 0, end_ := 5, exists_ := true } }).c.pos = 2
    ∧ editor_remove_word_before_cursor
        { c := { pos := 5, row := 0, col := 5 }, buffer := [97, 98, 32, 99, 100],
          lines := [{ start := 0, end_ := 5 }],
          selection := { start := 0, end_ := 5, exists_ := true } }
      = { c := { pos := 0, row := 0, col := 5 }, buffer := [32, 99, 100],
          lines := [{ start := 0, end_ := 3 }],
          selection := { start := 0, end_ := 0, exists_ := false } } :=
  ⟨⟨by decide, by decide, by decide, by decide, by decide⟩, by decide, by decide⟩

theorem remove_word_before_eq (e : Editor) (hp : e.c.pos < INT_LIMIT) :
    editor_remove_word_before_cursor e
      = editor_selection_delete (editor_select (editor_cursor_to_prev_word e) e.c.pos) := by
  have h : editor_remove_word_before_cursor e
      = editor_selection_delete
          (editor_select (editor_cursor_to_prev_word e) (int_to_size (to_int e.c.pos))) := rfl
  rw [h, int_round_trip _ hp]

theorem remove_word_after_eq (e : Editor) (hp : e.c.pos < INT_LIMIT) :
    editor_remove_word_after_cursor e
      = editor_selection_delete (editor_select (editor_cursor_to_next_word e) e.c.pos) := by
  have h : editor_remove_word_after_cursor e
      = editor_selection_delete
          (editor_select (editor_cursor_to_next_word e) (int_to_size (to_int e.c.pos))) := rfl
  rw [h, int_round_trip _ hp]

/-- C17, amended: in every consistent state with a buffer shorter than `2^31`
bytes, no active selection (the selection being the cleared one) and the cursor
at `p`,
`editor_remove_word_before_cursor` removes exactly the bytes `[q, p)`, `q <= p`
being the offset `editor_cursor_to_prev_word` moves to, and leaves the cursor
at `q`; `editor_remove_word_after_cursor` removes exactly the bytes `[p, q')`,
`q' >= p` being the offset `editor_cursor_to_next_word` moves to, and leaves
the cursor at `p`.  In both cases the other bytes are kept in order, no
selection is active afterwards and the line index is recomputed. -/
theorem C17_word_delete (e : Editor) (h : Consistent e)
    (hsel : e.selection = { start := 0, end_ := 0, exists_ := false })
    (hb : e.buffer.length < INT_LIMIT) :
    (editor_cursor_to_prev_word e).c.pos ≤ e.c.pos
    ∧ editor_remove_word_before_cursor e
        = { e with
              buffer := e.buffer.take (editor_cursor_to_prev_word e).c.pos
                          ++ e.buffer.drop e.c.pos,
              c := { e.c with pos := (editor_cursor_to_prev_word e).c.pos },
              selection := { start := 0, end_ := 0, exists_ := false },
              lines := lineIndex (e.buffer.take (editor_cursor_to_prev_word e).c.pos
                                    ++ e.buffer.drop e.c.pos) }
    ∧ e.c.pos ≤ (editor_cursor_to_next_word e).c.pos
    ∧ editor_remove_word_after_cursor e
        = { e with
              buffer := e.buffer.take e.c.pos
                          ++ e.buffer.drop (editor_cursor_to_next_word e).c.pos,
              c := { e.c with pos := e.c.pos },
              selection := { start := 0, end_ := 0, exists_ := false },
              lines := lineIndex (e.buffer.take e.c.pos
                                    ++ e.buffer.drop (editor_cursor_to_next_word e).c.pos) } := by
  obtain ⟨b1, b2, b3⟩ := word_bounds e h
  have hp := h.2.1
  refine ⟨b3, ?_, b1, ?_⟩
  · obtain ⟨q, hq⟩ : ∃ q, (editor_cursor_to_prev_word e).c.pos = q := ⟨_, rfl⟩
    have hstate : editor_cursor_to_prev_word e = { e with c := { e.c with pos := q } } := by
      rw [← hq]; exact prev_word_eq e
    rw [hq] at b3 ⊢
    have hdel := select_then_delete { e with c := { e.c with pos := q } } e.c.pos hp
      (by simp only; omega) hsel hb
    simp only [min_eq_right b3, max_eq_left b3] at hdel
    rw [remove_word_before_eq e (by omega), hstate]
    exact hdel
  · obtain ⟨q, hq⟩ : ∃ q, (editor_cursor_to_next_word e).c.pos = q := ⟨_, rfl⟩
    have hstate : editor_cursor_to_next_word e = { e with c := { e.c with pos := q } } := by
      rw [← hq]; exact next_word_eq e
    rw [hq] at b1 b2 ⊢
    have hdel := select_then_delete { e with c := { e.c with pos := q } } e.c.pos hp
      (by simp only; omega) hsel hb
    simp only [min_eq_left b1, max_eq_right b1] at hdel
    rw [remove_word_after_eq e (by omega), hstate]
    exact hdel

/-- C17 (amended) on buffer "ab cd" with the cursor at 5 and no selection:
Backspace-word removes `[2, 5)` and leaves "ab" with the cursor at 2. -/
theorem C17_word_delete_witness :
    Consistent
        { c := { pos := 5, row := 0, col := 5 }, buffer := [97, 98, 32, 99, 100],
          lines := [{ start := 0, end_ := 5 }],
          selection := { start := 0, end_ := 0, exists_ := false } }
    ∧ ([97, 98, 32, 99, 100].length < INT_LIMIT)
    ∧ editor_remove_word_before_cursor
        { c := { pos := 5, row := 0, col := 5 }, buffer := [97, 98, 32, 99, 100],
          lines := [{ start := 0, end_ := 5 }],
          selection := { start := 0, end_ := 0, exists_ := false } }
      = { c := { pos := 2, row := 0, col := 5 }, buffer := [97, 98],
          lines := [{ start := 0, end_ := 2 }],
          selection := { start := 0, end_ := 0, exists_ := false } } := by
  refine ⟨⟨by decide, by decide, by decide, by decide, by decide⟩, by decide, ?_⟩
  rw [(C17_word_delete _ ⟨by decide, by decide, by decide, by decide, by decide⟩ rfl
    (by decide)).2.1]
  decide

/-! ## Offset well-formedness -/

theorem lineIndex_length_pos (buf : List Byte) : 0 < (lineIndex buf).length := by
  rw [lineIndex_eq]
  exact List.length_pos.mpr (linesFrom_ne_nil _ _ _)

theorem get_row_loop_count (cs : List Byte) (i s pos k : Nat)
    (h1 : s ≤ pos) (h2 : pos ≤ i + cs.length) (hs : s ≤ i) :
    cursor_get_row_loop pos (linesFrom cs i s) k
      = some (k + (cs.take (pos - i)).count NEWLINE) := by
  induction cs generalizing i s k with
  | nil =>
    simp only [List.length_nil, Nat.add_zero] at h2
    simp [linesFrom, cursor_get_row_loop, h1, h2]
  | cons ch rest ih =>
    simp only [List.length_cons] at h2
    by_cases hp : pos ≤ i
    · have htake : (ch :: rest).take (pos - i) = [] := by
        rw [show pos - i = 0 by omega]; rfl
      rw [htake]
      by_cases h : ch = NEWLINE
      · simp [linesFrom, h, cursor_get_row_loop, h1, hp]
      · simp only [linesFrom, h, if_false]
        rw [ih (i + 1) s k h1 (by omega) (by omega), show pos - (i + 1) = 0 by omega]
        rfl
    · have htake : (ch :: rest).take (pos - i) = ch :: rest.take (pos - (i + 1)) := by
        rw [show pos - i = (pos - (i + 1)) + 1 by omega, List.take_succ_cons]
      rw [htake]
      by_cases h : ch = NEWLINE
      · simp only [linesFrom, h, if_true, cursor_get_row_loop]
        rw [if_neg (by omega), ih (i + 1) (i + 1) (k + 1) (by omega) (by omega) (le_refl _)]
        simp only [List.count_cons_self]
        congr 1
        omega
      · simp only [linesFrom, h, if_false]
        rw [ih (i + 1) s k h1 (by omega) (by omega)]
        have h2 : ¬ (ch == NEWLINE) = true := by simpa using h
        simp [List.count_cons, h2]

theorem cursor_get_row_count (c : Cursor) (buf : List Byte) (hpos : c.pos ≤ buf.length) :
    cursor_get_row c (lineIndex buf) = (buf.take c.pos).count NEWLINE := by
  rw [lineIndex_eq]
  have h := get_row_loop_count buf 0 0 c.pos 0 (Nat.zero_le _) (by omega) (le_refl _)
  simp only [cursor_get_row, h, Nat.zero_add, Nat.sub_zero]

/-- C26: for every buffer with its recomputed line index and every cursor offset
`pos <= buffer length` (the length being a `size_t` value), the row
`cursor_get_row` returns, which is the row `editor_cursor_update` stores, is the
number of newline bytes in `buffer[0..pos)`; and the column
`editor_cursor_update` stores is `pos - st`, where `st = line[row].start` is at
most `pos`, is offset 0 or just after a newline byte, and has no newline byte
in `buffer[st..pos)`: the column is the number of bytes between the last
newline before `pos` (or the buffer start) and `pos`. -/
theorem C26_row_col_counts (e : Editor) (hlines : e.lines = lineIndex e.buffer)
    (hpos : e.c.pos ≤ e.buffer.length) (hlen : e.buffer.length < SIZE_MOD) :
    cursor_get_row e.c e.lines = (e.buffer.take e.c.pos).count NEWLINE
    ∧ (editor_cursor_update e).c.row = (e.buffer.take e.c.pos).count NEWLINE
    ∧ (e.lines.getD (cursor_get_row e.c e.lines) default).start ≤ e.c.pos
    ∧ ((e.lines.getD (cursor_get_row e.c e.lines) default).start = 0
        ∨ e.buffer.getD ((e.lines.getD (cursor_get_row e.c e.lines) default).start - 1) 0
            = NEWLINE)
    ∧ (∀ k, (e.lines.getD (cursor_get_row e.c e.lines) default).start ≤ k → k < e.c.pos →
        e.buffer.getD k 0 ≠ NEWLINE)
    ∧ (editor_cursor_update e).c.col
        = e.c.pos - (e.lines.getD (cursor_get_row e.c e.lines) default).start := by
  have hrow : cursor_get_row e.c e.lines = (e.buffer.take e.c.pos).count NEWLINE := by
    rw [hlines]; exact cursor_get_row_count e.c e.buffer hpos
  obtain ⟨_, r2, r3, _, _, w3, _, w5⟩ := cursor_get_row_spec e.c e.buffer hpos
  rw [← hlines] at r2 r3 w3 w5
  refine ⟨hrow, hrow, r2, w5, fun k hk1 hk2 => w3 k hk1 (by omega), ?_⟩
  simp only [editor_cursor_update, cursor_get_col]
  exact size_sub_eq _ _ r2 (by omega)

/-- C26 on buffer "ab\ncd\nef" with the cursor at 7: two newline bytes before
the cursor, row 2; one byte since the last newline, column 1. -/
theorem C26_row_col_counts_witness :
    ([{ start := 0, end_ := 2 }, { start := 3, end_ := 5 }, { start := 6, end_ := 8 }]
        = lineIndex [97, 98, 10, 99, 100, 10, 101, 102])
    ∧ (7 ≤ [97, 98, 10, 99, 100, 10, 101, 102].length)
    ∧ ([97, 98, 10, 99, 100, 10, 101, 102].length < SIZE_MOD)
    ∧ (editor_cursor_update
          { c := { pos := 7, row := 0, col := 0 },
            buffer := [97, 98, 10, 99, 100, 10, 101, 102],
            lines := [{ start := 0, end_ := 2 }, { start := 3, end_ := 5 },
                      { start := 6, end_ := 8 }],
            selection := { start := 0, end_ := 0, exists_ := false } }).c
        = { pos := 7, row := 2, col := 1 }
    ∧ (editor_cursor_update
          { c := { pos := 7, row := 0, col := 0 },
            buffer := [97, 98, 10, 99, 100, 10, 101, 102],
            lines := [{ start := 0, end_ := 2 }, { start := 3, end_ := 5 },
                      { start := 6, end_ := 8 }],
            selection := { start := 0, end_ := 0, exists_ := false } }).c.row
        = (List.take 7 [97, 98, 10, 99, 100, 10, 101, 102]).count NEWLINE :=
  ⟨by decide, by decide, by decide, by decide,
   (C26_row_col_counts
      { c := { pos := 7, row := 0, col := 0 },
        buffer := [97, 98, 10, 99, 100, 10, 101, 102],
        lines := [{ start := 0, end_ := 2 }, { start := 3, end_ := 5 },
                  { start := 6, end_ := 8 }],
        selection := { start := 0, end_ := 0, exists_ := false } }
      (by decide) (by decide) (by decide)).2.1⟩

/-! ## The doubled line-up and line-down blocks -/

theorem cursor_up_shape (e : Editor) :
    (editor_cursor_up e).c.row = e.c.row ∧ (editor_cursor_up e).c.col = e.c.col
    ∧ (editor_cursor_up e).lines = e.lines ∧ (editor_cursor_up e).buffer = e.buffer
    ∧ (editor_cursor_up e).selection = e.selection := by
  unfold editor_cursor_up
  split
  · exact ⟨rfl, rfl, rfl, rfl, rfl⟩
  · simp only
    split <;> exact ⟨rfl, rfl, rfl, rfl, rfl⟩

theorem cursor_down_shape (e : Editor) :
    (editor_cursor_down e).c.row = e.c.row ∧ (editor_cursor_down e).c.col = e.c.col
    ∧ (editor_cursor_down e).lines = e.lines ∧ (editor_cursor_down e).buffer = e.buffer
    ∧ (editor_cursor_down e).selection = e.selection := by
  unfold editor_cursor_down
  split
  · exact ⟨rfl, rfl, rfl, rfl, rfl⟩
  · simp only
    split <;> exact ⟨rfl, rfl, rfl, rfl, rfl⟩

theorem cursor_up_idem (e : Editor) :
    editor_cursor_up (editor_cursor_up e) = editor_cursor_up e := by
  unfold editor_cursor_up
  split
  · next h0 => simp only [h0, if_true]
  · next h0 =>
    simp only
    split
    · next hc => simp only [h0, if_false, hc, if_true]
    · next hc => simp only [h0, if_false, hc]

theorem cursor_down_idem (e : Editor) :
    editor_cursor_down (editor_cursor_down e) = editor_cursor_down e := by
  unfold editor_cursor_down
  split
  · next h0 => simp only [h0, if_true]
  · next h0 =>
    simp only
    split
    · next hc => simp only [h0, if_false, hc, if_true]
    · next hc => simp only [h0, if_false, hc]

/-- C25: `editor_cursor_up` and `editor_cursor_down` are idempotent on every
state, since they leave the stored row and column, the line index, the buffer
and the selection as they are and write only the cursor offset.  Hence the two
invocations that `editor_update` makes for one Up (one Down) input amount to
one, and in a consistent state the row `editor_cursor_update` derives afterwards
is `row - 1` from a row that is not the first (`row + 1` from a row that is not
the last): one row, not two. -/
theorem C25_vertical_idempotent (e : Editor) :
    editor_cursor_up (editor_cursor_up e) = editor_cursor_up e
    ∧ editor_cursor_down (editor_cursor_down e) = editor_cursor_down e
    ∧ ((editor_cursor_up e).c.row = e.c.row ∧ (editor_cursor_up e).c.col = e.c.col
        ∧ (editor_cursor_up e).lines = e.lines ∧ (editor_cursor_up e).buffer = e.buffer
        ∧ (editor_cursor_up e).selection = e.selection)
    ∧ ((editor_cursor_down e).c.row = e.c.row ∧ (editor_cursor_down e).c.col = e.c.col
        ∧ (editor_cursor_down e).lines = e.lines ∧ (editor_cursor_down e).buffer = e.buffer
        ∧ (editor_cursor_down e).selection = e.selection)
    ∧ editor_update_vertical true false e = editor_cursor_up e
    ∧ editor_update_vertical false true e = editor_cursor_down e
    ∧ (Consistent e → 0 < e.c.row →
        (editor_cursor_update (editor_update_vertical true false e)).c.row = e.c.row - 1)
    ∧ (Consistent e → e.c.row + 1 < e.lines.length →
        (editor_cursor_update (editor_update_vertical false true e)).c.row = e.c.row + 1) := by
  have hup : editor_update_vertical true false e = editor_cursor_up e := by
    simp only [editor_update_vertical, if_true, Bool.false_eq_true, if_false]
    exact cursor_up_idem e
  have hdown : editor_update_vertical false true e = editor_cursor_down e := by
    simp only [editor_update_vertical, if_true, Bool.false_eq_true, if_false]
    exact cursor_down_idem e
  refine ⟨cursor_up_idem e, cursor_down_idem e, cursor_up_shape e, cursor_down_shape e,
    hup, hdown, ?_, ?_⟩
  · intro h hrow
    obtain ⟨hl, hp, hn, hr, hc⟩ := h
    have hlen : e.c.row < e.lines.length := by
      have := (cursor_get_row_spec e.c e.buffer hp).1
      rw [← hl, ← hr] at this
      exact this
    have hw := lineIndex_getD_wf e.buffer (e.c.row - 1) (by rw [← hl]; omega)
    rw [← hl] at hw
    have hs := hw.1
    rw [hup]
    unfold editor_cursor_up
    rw [if_neg (by omega)]
    simp only
    split
    · exact (vertical_target e hl hn (e.c.row - 1) _ (by omega) (by omega) (by omega)).1
    · exact (vertical_target e hl hn (e.c.row - 1) _ (by omega) hw.1 (le_refl _)).1
  · intro h hrow
    obtain ⟨hl, hp, hn, hr, hc⟩ := h
    have hw := lineIndex_getD_wf e.buffer (e.c.row + 1) (by rw [← hl]; omega)
    rw [← hl] at hw
    have hs := hw.1
    rw [hdown]
    unfold editor_cursor_down
    rw [if_neg (by omega)]
    simp only
    split
    · exact (vertical_target e hl hn (e.c.row + 1) _ (by omega) (by omega) (by omega)).1
    · exact (vertical_target e hl hn (e.c.row + 1) _ (by omega) hw.1 (le_refl _)).1

/-- C25 on buffer "ab\ncd\nef" with the cursor at 7 (row 2, column 1): one Up
input, handled by two calls of `editor_cursor_up`, puts the cursor at 4, on
row 1. -/
theorem C25_vertical_idempotent_witness :
    (editor_cursor_update (editor_update_vertical true false
        { c := { pos := 7, row := 2, col := 1 },
          buffer := [97, 98, 10, 99, 100, 10, 101, 102],
          lines := [{ start := 0, end_ := 2 }, { start := 3, end_ := 5 },
                    { start := 6, end_ := 8 }],
          selection := { start := 0, end_ := 0, exists_ := false } })).c
      = { pos := 4, row := 1, col := 1 }
    ∧ (editor_cursor_update (editor_update_vertical true false
        { c := { pos := 7, row := 2, col := 1 },
          buffer := [97, 98, 10, 99, 100, 10, 101, 102],
          lines := [{ start := 0, end_ := 2 }, { start := 3, end_ := 5 },
                    { start := 6, end_ := 8 }],
          selection := { start := 0, end_ := 0, exists_ := false } })).c.row = 2 - 1 :=
  ⟨by decide,
   (C25_vertical_idempotent
      { c := { pos := 7, row := 2, col := 1 },
        buffer := [97, 98, 10, 99, 100, 10, 101, 102],
        lines := [{ start := 0, end_ := 2 }, { start := 3, end_ := 5 },
                  { start := 6, end_ := 8 }],
        selection := { start := 0, end_ := 0, exists_ := false } }).2.2.2.2.2.2.1
      ⟨by decide, by decide, by decide, by decide, by decide⟩ (by decide)⟩

/-! ## Loading a file -/

/-- C22 as stated fails when the file cannot be opened: `editor_load_file` has
already stored the file name, so a session without a file name gets one, and
the notification is left as it was (none is issued). -/
theorem C22_counterexample :
    (editor_load_file
        { editor := { c := { pos := 0, row := 0, col := 0 }, buffer := [],
                      lines := [{ start := 0, end_ := 0 }],
                      selection := { start := 0, end_ := 0, exists_ := false } },
          filename := none,
          notif := { items := [], timer := 0 } } [97] none).filename = some [97]
    ∧ (editor_load_file
        { editor := { c := { pos := 0, row := 0, col := 0 }, buffer := [],
                      lines := [{ start := 0, end_ := 0 }],
                      selection := { start := 0, end_ := 0, exists_ := false } },
          filename := none,
          notif := { items := [], timer := 0 } } [97] none).notif
        = { items := [], timer := 0 } := by
  decide

/-- C22, amended: when the file cannot be opened, `editor_load_file` leaves the
buffer, the line index, the cursor and the selection unchanged, but the file
name becomes the requested one, and no notification is issued (the
notification is unchanged); when it can, the buffer becomes exactly the bytes
of the file, the line index is the recomputation over them, the cursor and the
selection are unchanged and the file name is the requested one. -/
theorem C22_load_file (s : Session) (filename : List Byte) (bytes : List Byte) :
    (editor_load_file s filename none).editor = s.editor
    ∧ (editor_load_file s filename none).filename = some filename
    ∧ (editor_load_file s filename none).notif = s.notif
    ∧ (editor_load_file s filename (some bytes)).editor.buffer = bytes
    ∧ (editor_load_file s filename (some bytes)).editor.lines = lineIndex bytes
    ∧ (editor_load_file s filename (some bytes)).editor.c = s.editor.c
    ∧ (editor_load_file s filename (some bytes)).editor.selection = s.editor.selection
    ∧ (editor_load_file s filename (some bytes)).filename = some filename
    ∧ (editor_load_file s filename (some bytes)).notif = s.notif := by
  refine ⟨rfl, rfl, rfl, ?_, ?_, ?_, ?_, rfl, rfl⟩
  all_goals
    simp only [editor_load_file, calculate_lines_eq]

/-! ## Enter: the newline with indentation -/

theorem enter_spaces_spec (l : List Byte) (n k : Nat)
    (h1 : ∀ i, i < k → l.getD i 0 = SPACE)
    (h2 : k = l.length ∨ l.getD k 0 ≠ SPACE) (h3 : k ≤ l.length) :
    editor_update_enter_spaces l n = n + k := by
  induction l generalizing n k with
  | nil =>
    have : k = 0 := by simpa using h3
    subst this
    rfl
  | cons b rest ih =>
    cases k with
    | zero =>
      rcases h2 with h2 | h2
      · simp at h2
      · simp only [List.getD_cons_zero] at h2
        simp only [editor_update_enter_spaces, h2, if_false, Nat.add_zero]
    | succ k =>
      have hb := h1 0 (by omega)
      simp only [List.getD_cons_zero] at hb
      simp only [editor_update_enter_spaces, hb, if_true]
      rw [ih (n + 1) k (fun i hi => by simpa using h1 (i + 1) (by omega))
        (by
          rcases h2 with h2 | h2
          · left; simpa using h2
          · right; simpa using h2)
        (by simpa using h3)]
      omega

theorem getD_drop_zero (l : List Byte) (n j : Nat) :
    (l.drop n).getD j 0 = l.getD (n + j) 0 := getD_drop_add l n j 0

theorem count_newline_insert (buf t : List Byte) (p : Nat) :
    (buf.take p ++ t ++ buf.drop p).count NEWLINE = buf.count NEWLINE + t.count NEWLINE := by
  have h : buf.count NEWLINE = (buf.take p).count NEWLINE + (buf.drop p).count NEWLINE := by
    rw [← List.count_append, List.take_append_drop]
  rw [List.count_append, List.count_append, h]
  omega

theorem lineIndex_length (buf : List Byte) : (lineIndex buf).length = buf.count NEWLINE + 1 := by
  rw [lineIndex_eq]; exact linesFrom_length _ _ _

theorem getD_append_buffer (buf slack : List Byte) (i : Nat) (h : i < buf.length) :
    (buf ++ slack).getD i 0 = buf.getD i 0 := by
  rw [List.getD_eq_getElem?_getD, List.getD_eq_getElem?_getD, List.getElem?_append_left h]

theorem getD_append_slack (buf slack : List Byte) :
    (buf ++ slack).getD buf.length 0 = slack.getD 0 0 := by
  rw [List.getD_eq_getElem?_getD, List.getD_eq_getElem?_getD,
    List.getElem?_append_right (le_refl _), Nat.sub_self]

/-- Enter with no active selection, when the counting loop is stopped by a byte
it may read: in a consistent state with a buffer shorter than `2^31` bytes, let
`k` be the number of space bytes the line of the cursor begins with (the run
ended by the end of the line or by a byte that is not a space), and let the
byte at `items[count]` (the head of `slack`) not be a space.  Then the enter
block leaves the buffer `buffer[0..p) ++ ['\n'] ++ (k spaces) ++ buffer[p..)`,
the cursor at `p + 1 + k`, the line index recomputed, and one line more than
before, wherever in the line the cursor is. -/
theorem enter_indent_terminated (e : Editor) (slack : List Byte) (h : Consistent e)
    (hsel : e.selection.exists_ = false) (k : Nat)
    (hk1 : ∀ i, i < k → e.buffer.getD ((e.lines.getD e.c.row default).start + i) 0 = SPACE)
    (hk2 : (e.lines.getD e.c.row default).start + k ≤ (e.lines.getD e.c.row default).end_)
    (hk3 : (e.lines.getD e.c.row default).start + k = (e.lines.getD e.c.row default).end_
            ∨ e.buffer.getD ((e.lines.getD e.c.row default).start + k) 0 ≠ SPACE)
    (hslack : slack.getD 0 0 ≠ SPACE) (hI : e.buffer.length < INT_LIMIT) :
    editor_update_enter e slack
      = { e with
            buffer := e.buffer.take e.c.pos ++ (NEWLINE :: List.replicate k SPACE)
                        ++ e.buffer.drop e.c.pos,
            c := { e.c with pos := e.c.pos + 1 + k },
            lines := lineIndex (e.buffer.take e.c.pos ++ (NEWLINE :: List.replicate k SPACE)
                                  ++ e.buffer.drop e.c.pos) }
    ∧ (editor_update_enter e slack).lines.length = e.lines.length + 1 := by
  obtain ⟨_, _, _, hw, _⟩ := consistent_row e h
  obtain ⟨hl, hp, hn, hr, hc⟩ := h
  obtain ⟨w1, w2, _, w4, _⟩ := hw
  have hstop : (e.buffer ++ slack).getD ((e.lines.getD e.c.row default).start + k) 0 ≠ SPACE := by
    by_cases hlt : (e.lines.getD e.c.row default).start + k < e.buffer.length
    · rw [getD_append_buffer _ _ _ hlt]
      rcases hk3 with hk3 | hk3
      · rcases w4 with w4 | w4
        · omega
        · rw [hk3, w4]
          decide
      · exact hk3
    · rw [show (e.lines.getD e.c.row default).start + k = e.buffer.length by omega,
        getD_append_slack]
      exact hslack
  have hspaces : editor_update_enter_spaces
      ((e.buffer ++ slack).drop (e.lines.getD e.c.row default).start) 0 = k := by
    rw [enter_spaces_spec _ 0 k
      (fun i hi => by
        rw [getD_drop_zero, getD_append_buffer _ _ _ (by omega)]
        exact hk1 i hi)
      (by
        right
        rw [getD_drop_zero]
        exact hstop)
      (by simp only [List.length_drop, List.length_append]; omega)]
    omega
  have hint : (to_int k).toNat = k := by
    rw [to_int_exact k (by omega)]
    rfl
  have heq : editor_update_enter e slack
      = (NEWLINE :: List.replicate k SPACE).foldl editor_insert_char_at_cursor e := by
    unfold editor_update_enter
    simp only [hsel, Bool.false_eq_true, if_false, hspaces, hint, List.foldl_cons]
  have hres := insert_fold (NEWLINE :: List.replicate k SPACE) e hp
  simp only [reduceCtorEq, if_false, List.length_cons, List.length_replicate] at hres
  rw [heq, hres]
  refine ⟨?_, ?_⟩
  · rw [show e.c.pos + (k + 1) = e.c.pos + 1 + k by omega]
  · simp only
    rw [lineIndex_length, count_newline_insert, hl, lineIndex_length]
    have h0 : (List.replicate k SPACE).count NEWLINE = 0 := by
      rw [List.count_eq_zero]
      intro hm
      have := List.eq_of_mem_replicate hm
      exact absurd this (by decide)
    simp only [List.count_cons_self, h0]

/-- C21, the code at a failing input: the buffer is four spaces with the
cursor at 0 and no selection, `items[4]` holds the zero byte `editor_draw`
stored there, and Ctrl+X and Enter arrive in the same `editor_update`.  The cut
of the line leaves a consistent state with the empty buffer and no selection,
in which the line of the cursor is the empty line `{0, 0}` (so `k = 0`), while
the four spaces stay in the allocation past `count`.  The counting loop of the
enter block has no bound and reads them: Enter leaves the newline followed by
four spaces and the cursor at 5, not the newline alone and the cursor at 1. -/
theorem C21_enter_stale_bytes :
    Consistent
        { c := { pos := 0, row := 0, col := 0 }, buffer := [32, 32, 32, 32],
          lines := [{ start := 0, end_ := 4 }],
          selection := { start := 0, end_ := 0, exists_ := false } }
    ∧ (editor_cut
        { c := { pos := 0, row := 0, col := 0 }, buffer := [32, 32, 32, 32],
          lines := [{ start := 0, end_ := 4 }],
          selection := { start := 0, end_ := 0, exists_ := false } }).2
      = { c := { pos := 0, row := 0, col := 0 }, buffer := [],
          lines := [{ start := 0, end_ := 0 }],
          selection := { start := 0, end_ := 0, exists_ := false } }
    ∧ Consistent
        { c := { pos := 0, row := 0, col := 0 }, buffer := [],
          lines := [{ start := 0, end_ := 0 }],
          selection := { start := 0, end_ := 0, exists_ := false } }
    ∧ editor_cut_slack
        { c := { pos := 0, row := 0, col := 0 }, buffer := [32, 32, 32, 32],
          lines := [{ start := 0, end_ := 4 }],
          selection := { start := 0, end_ := 0, exists_ := false } } [0]
      = [32, 32, 32, 32, 0]
    ∧ editor_update_enter
        { c := { pos := 0, row := 0, col := 0 }, buffer := [],
          lines := [{ start := 0, end_ := 0 }],
          selection := { start := 0, end_ := 0, exists_ := false } } [32, 32, 32, 32, 0]
      = { c := { pos := 5, row := 0, col := 0 }, buffer := [10, 32, 32, 32, 32],
          lines := [{ start := 0, end_ := 0 }, { start := 1, end_ := 5 }],
          selection := { start := 0, end_ := 0, exists_ := false } } :=
  ⟨⟨by decide, by decide, by decide, by decide, by decide⟩, by decide,
   ⟨by decide, by decide, by decide, by decide, by decide⟩, by decide, by decide⟩

/-! ## Cutting the current line -/

theorem copy_range_of (buf : List Byte) (lo hi : Nat) (h2 : hi ≤ buf.length)
    (hz : 0 ∉ (buf.drop lo).take (hi - lo)) :
    c_string (strncpy (buf.drop lo) (hi - lo) ++ [0]) = (buf.drop lo).take (hi - lo) := by
  rw [strncpy_eq_take _ _ (by simp; omega) hz]
  exact c_string_terminated _ hz

theorem getD_splice_before (b : List Byte) (s en k : Nat) (hs : s ≤ b.length) (hk : k < s) :
    (b.take s ++ b.drop en).getD k 0 = b.getD k 0 := by
  have h1 : k < (b.take s).length := by simp; omega
  rw [List.getD_eq_getElem?_getD, List.getD_eq_getElem?_getD,
    List.getElem?_append_left h1, List.getElem?_take_of_lt hk]

theorem getD_splice_at (b : List Byte) (s en : Nat) (hs : s ≤ b.length) :
    (b.take s ++ b.drop en).getD s 0 = b.getD en 0 := by
  have h1 : (b.take s).length ≤ s := by simp
  have h2 : (b.take s).length = s := by simp [hs]
  rw [List.getD_eq_getElem?_getD, List.getD_eq_getElem?_getD,
    List.getElem?_append_right h1, h2, Nat.sub_self, List.getElem?_drop, Nat.add_zero]

theorem cut_line_row (b : List Byte) (r : Nat) (hr : r < (lineIndex b).length) :
    (lineIndex (b.take ((lineIndex b).getD r default).start
                  ++ b.drop ((lineIndex b).getD r default).end_)).getD r default
      = { start := ((lineIndex b).getD r default).start,
          end_ := ((lineIndex b).getD r default).start } := by
  obtain ⟨s, hs⟩ : ∃ s, ((lineIndex b).getD r default).start = s := ⟨_, rfl⟩
  obtain ⟨en, hen⟩ : ∃ en, ((lineIndex b).getD r default).end_ = en := ⟨_, rfl⟩
  obtain ⟨w1, w2, w3, w4, w5⟩ := lineIndex_getD_wf b r hr
  simp only [hs, hen] at w1 w2 w3 w4 w5 ⊢
  have hsb : s ≤ b.length := le_trans w1 w2
  have hlen : (b.take s ++ b.drop en).length = s + (b.length - en) := by
    simp only [List.length_append, List.length_take, List.length_drop]
    omega
  -- the row of offset `s` is `r`, before and after the cut
  have hrow_old : cursor_get_row { pos := s, row := 0, col := 0 } (lineIndex b) = r :=
    cursor_get_row_unique b { pos := s, row := 0, col := 0 } hsb r hr
      (by rw [hs]) (by rw [hen]; exact w1)
  have hcount_old := cursor_get_row_count { pos := s, row := 0, col := 0 } b hsb
  have hcount_new := cursor_get_row_count { pos := s, row := 0, col := 0 }
    (b.take s ++ b.drop en) (by rw [hlen]; simp only; omega)
  have htake : (b.take s ++ b.drop en).take s = b.take s := by
    apply List.take_left'
    simp [hsb]
  simp only [htake] at hcount_new
  simp only at hcount_old
  have hrow_new : cursor_get_row { pos := s, row := 0, col := 0 }
      (lineIndex (b.take s ++ b.drop en)) = r := by
    rw [hcount_new, ← hcount_old, hrow_old]
  obtain ⟨_, n2, n3, m1, m2, m3, m4, m5⟩ := cursor_get_row_spec { pos := s, row := 0, col := 0 }
    (b.take s ++ b.drop en) (by rw [hlen]; simp only; omega)
  rw [hrow_new] at n2 n3 m1 m2 m3 m4 m5
  simp only at n2 n3
  obtain ⟨ls, hls⟩ : ∃ ls, ((lineIndex (b.take s ++ b.drop en)).getD r default).start = ls :=
    ⟨_, rfl⟩
  obtain ⟨le, hle⟩ : ∃ le, ((lineIndex (b.take s ++ b.drop en)).getD r default).end_ = le :=
    ⟨_, rfl⟩
  simp only [hls, hle] at n2 n3 m1 m2 m3 m4 m5
  have hstart : ls = s := by
    by_contra hne
    have hlt : ls < s := by omega
    have h1 := m3 (s - 1) (by omega) (by omega)
    rw [getD_splice_before b s en (s - 1) hsb (by omega)] at h1
    rcases w5 with w5 | w5
    · omega
    · exact h1 w5
  have hend : le = s := by
    by_contra hne
    have hlt : s < le := by omega
    have h1 := m3 s (by omega) hlt
    rw [getD_splice_at b s en hsb] at h1
    rcases w4 with w4 | w4
    · rw [hlen] at m2
      omega
    · exact h1 w4
  have hline : (lineIndex (b.take s ++ b.drop en)).getD r default
      = { start := ls, end_ := le } := by
    rw [← hls, ← hle]
  rw [hline, hstart, hend]

theorem count_newline_cut (b : List Byte) (s en : Nat) (h1 : s ≤ en)
    (hno : ∀ k, s ≤ k → k < en → b.getD k 0 ≠ NEWLINE) :
    (b.take s ++ b.drop en).count NEWLINE = b.count NEWLINE := by
  have hmid : ((b.drop s).take (en - s)).count NEWLINE = 0 := by
    rw [List.count_eq_zero]
    intro hm
    obtain ⟨k, hk1, hk2, hk3⟩ := mem_take_drop_getD _ _ _ _ hm
    exact hno k hk1 (by omega) hk3
  have hsplit : b = b.take s ++ ((b.drop s).take (en - s) ++ b.drop en) := by
    have h2 : (b.drop s).take (en - s) ++ b.drop en = b.drop s := by
      have := List.take_append_drop (en - s) (b.drop s)
      rw [List.drop_drop, show s + (en - s) = en by omega] at this
      exact this
    rw [h2, List.take_append_drop]
  have hcount : b.count NEWLINE
      = (b.take s).count NEWLINE
        + (((b.drop s).take (en - s)).count NEWLINE + (b.drop en).count NEWLINE) := by
    rw [← List.count_append, ← List.count_append, ← hsplit]
  rw [List.count_append, hcount, hmid]
  omega

/-- C23 as stated fails when the line holds a zero byte: on the one-line buffer
`a \0 b` with no selection, `editor_cut` removes the three bytes of the line
but hands the clipboard only "a", the C string that `strncpy` copies. -/
theorem C23_counterexample :
    Consistent
        { c := { pos := 1, row := 0, col := 1 }, buffer := [97, 0, 98],
          lines := [{ start := 0, end_ := 3 }],
          selection := { start := 0, end_ := 0, exists_ := false } }
    ∧ lineBytes [97, 0, 98] { start := 0, end_ := 3 } = [97, 0, 98]
    ∧ (editor_cut
        { c := { pos := 1, row := 0, col := 1 }, buffer := [97, 0, 98],
          lines := [{ start := 0, end_ := 3 }],
          selection := { start := 0, end_ := 0, exists_ := false } }).1 = [97]
    ∧ (editor_cut
        { c := { pos := 1, row := 0, col := 1 }, buffer := [97, 0, 98],
          lines := [{ start := 0, end_ := 3 }],
          selection := { start := 0, end_ := 0, exists_ := false } }).2.buffer = [] :=
  ⟨⟨by decide, by decide, by decide, by decide, by decide⟩, by decide, by decide, by decide⟩

/-- C23, amended: in every consistent state with a buffer shorter than `2^31`
bytes and no active selection whose current line `r` holds no zero byte,
`editor_cut` hands the clipboard exactly
the bytes `buffer[line[r].start..line[r].end)`, removes exactly those bytes,
puts the cursor at `line[r].start`, leaves no active selection and the line
index recomputed; the newline that ended the line, if there was one, is now at
the cursor offset, the line count is unchanged and line `r` of the new index is
the empty line at `line[r].start`. -/
theorem C23_cut_line (e : Editor) (h : Consistent e) (hsel : e.selection.exists_ = false)
    (hz : 0 ∉ lineBytes e.buffer (e.lines.getD e.c.row default))
    (hI : e.buffer.length < INT_LIMIT) :
    (editor_cut e).1 = lineBytes e.buffer (e.lines.getD e.c.row default)
    ∧ (editor_cut e).2
        = { e with
              buffer := e.buffer.take (e.lines.getD e.c.row default).start
                          ++ e.buffer.drop (e.lines.getD e.c.row default).end_,
              c := { e.c with pos := (e.lines.getD e.c.row default).start },
              selection := { start := 0, end_ := 0, exists_ := false },
              lines := lineIndex (e.buffer.take (e.lines.getD e.c.row default).start
                                    ++ e.buffer.drop (e.lines.getD e.c.row default).end_) }
    ∧ ((e.lines.getD e.c.row default).end_ < e.buffer.length →
        (editor_cut e).2.buffer.getD (e.lines.getD e.c.row default).start 0 = NEWLINE)
    ∧ (editor_cut e).2.lines.length = e.lines.length
    ∧ (editor_cut e).2.lines.getD e.c.row default
        = { start := (e.lines.getD e.c.row default).start,
            end_ := (e.lines.getD e.c.row default).start } := by
  obtain ⟨hrow, _, _, hw, _⟩ := consistent_row e h
  obtain ⟨hl, hp, hn, hr, hc⟩ := h
  obtain ⟨w1, w2, w3, w4, w5⟩ := hw
  have hsb : (e.lines.getD e.c.row default).start ≤ e.buffer.length := le_trans w1 w2
  have hlen : int_to_size (to_int (size_sub (e.lines.getD e.c.row default).end_
        (e.lines.getD e.c.row default).start))
      = (e.lines.getD e.c.row default).end_ - (e.lines.getD e.c.row default).start := by
    rw [size_sub_eq _ _ w1 (by omega), int_round_trip _ (by omega)]
  have hclip : (editor_cut e).1 = lineBytes e.buffer (e.lines.getD e.c.row default) := by
    unfold editor_cut editor_copy
    simp only [hsel, Bool.false_eq_true, if_false, hlen]
    exact copy_range_of e.buffer _ _ w2 hz
  have hstate : (editor_cut e).2
      = { e with
            buffer := e.buffer.take (e.lines.getD e.c.row default).start
                        ++ e.buffer.drop (e.lines.getD e.c.row default).end_,
            c := { e.c with pos := (e.lines.getD e.c.row default).start },
            selection := { start := 0, end_ := 0, exists_ := false },
            lines := lineIndex (e.buffer.take (e.lines.getD e.c.row default).start
                                  ++ e.buffer.drop (e.lines.getD e.c.row default).end_) } := by
    unfold editor_cut
    simp only [hsel, Bool.false_eq_true, if_false]
    rw [selection_delete_eq _ hsb w2 (by exact hI)]
    simp only [min_eq_left w1, max_eq_right w1]
  refine ⟨hclip, hstate, ?_, ?_, ?_⟩
  · intro hlt
    rw [hstate]
    simp only
    rw [getD_splice_at e.buffer _ _ hsb]
    rcases w4 with w4 | w4
    · omega
    · exact w4
  · rw [hstate]
    simp only
    rw [lineIndex_length, count_newline_cut e.buffer _ _ w1 w3, hl, lineIndex_length]
  · rw [hstate]
    simp only
    have := cut_line_row e.buffer e.c.row (by rw [← hl]; exact hrow)
    rw [← hl] at this
    exact this

/-- C23 (amended) on buffer "ab\ncd\nef" with the cursor at 4 (row 1) and no
selection: the clipboard gets "cd", the buffer becomes "ab\n\nef" and row 1 is
the empty line at offset 3. -/
theorem C23_cut_line_witness :
    Consistent
        { c := { pos := 4, row := 1, col := 1 },
          buffer := [97, 98, 10, 99, 100, 10, 101, 102],
          lines := [{ start := 0, end_ := 2 }, { start := 3, end_ := 5 },
                    { start := 6, end_ := 8 }],
          selection := { start := 0, end_ := 0, exists_ := false } }
    ∧ ([97, 98, 10, 99, 100, 10, 101, 102].length < INT_LIMIT)
    ∧ (editor_cut
        { c := { pos := 4, row := 1, col := 1 },
          buffer := [97, 98, 10, 99, 100, 10, 101, 102],
          lines := [{ start := 0, end_ := 2 }, { start := 3, end_ := 5 },
                    { start := 6, end_ := 8 }],
          selection := { start := 0, end_ := 0, exists_ := false } })
      = ([99, 100],
         { c := { pos := 3, row := 1, col := 1 },
           buffer := [97, 98, 10, 10, 101, 102],
           lines := [{ start := 0, end_ := 2 }, { start := 3, end_ := 3 },
                     { start := 4, end_ := 6 }],
           selection := { start := 0, end_ := 0, exists_ := false } })
    ∧ (editor_cut
        { c := { pos := 4, row := 1, col := 1 },
          buffer := [97, 98, 10, 99, 100, 10, 101, 102],
          lines := [{ start := 0, end_ := 2 }, { start := 3, end_ := 5 },
                    { start := 6, end_ := 8 }],
          selection := { start := 0, end_ := 0, exists_ := false } }).1
      = lineBytes [97, 98, 10, 99, 100, 10, 101, 102] { start := 3, end_ := 5 } :=
  ⟨⟨by decide, by decide, by decide, by decide, by decide⟩, by decide, by decide,
   (C23_cut_line
      { c := { pos := 4, row := 1, col := 1 },
        buffer := [97, 98, 10, 99, 100, 10, 101, 102],
        lines := [{ start := 0, end_ := 2 }, { start := 3, end_ := 5 },
                  { start := 6, end_ := 8 }],
        selection := { start := 0, end_ := 0, exists_ := false } }
      ⟨by decide, by decide, by decide, by decide, by decide⟩ rfl (by decide)
      (by decide)).1⟩

/-! ## Enter with an active selection -/

/-- C24, the code at a failing input: buffer "x\n  yy\nzz\nw" with the selection
`{5, 8, exists}` and the cursor at 8 (row 2), a consistent state.  Deleting the
selection leaves "x\n  yz\nw" with the cursor at 5, which lies on row 1, a line
beginning with two spaces; the row stored in the cursor is still 2, so the enter
block (with the zero byte of `editor_draw` at `items[count]`) counts the spaces
of the line "w", finds none, and inserts the newline alone.  On buffer "ab\ncd" with everything selected and the cursor on row 1,
the row stored after the deletion is 1 while the recomputed line index has the
single line 0. -/
theorem C24_enter_stale_row :
    Consistent
        { c := { pos := 8, row := 2, col := 1 },
          buffer := [120, 10, 32, 32, 121, 121, 10, 122, 122, 10, 119],
          lines := [{ start := 0, end_ := 1 }, { start := 2, end_ := 6 },
                    { start := 7, end_ := 9 }, { start := 10, end_ := 11 }],
          selection := { start := 5, end_ := 8, exists_ := true } }
    ∧ editor_cursor_update (editor_selection_delete
        { c := { pos := 8, row := 2, col := 1 },
          buffer := [120, 10, 32, 32, 121, 121, 10, 122, 122, 10, 119],
          lines := [{ start := 0, end_ := 1 }, { start := 2, end_ := 6 },
                    { start := 7, end_ := 9 }, { start := 10, end_ := 11 }],
          selection := { start := 5, end_ := 8, exists_ := true } })
      = { c := { pos := 5, row := 1, col := 3 },
          buffer := [120, 10, 32, 32, 121, 122, 10, 119],
          lines := [{ start := 0, end_ := 1 }, { start := 2, end_ := 6 },
                    { start := 7, end_ := 8 }],
          selection := { start := 0, end_ := 0, exists_ := false } }
    ∧ (editor_selection_delete
        { c := { pos := 8, row := 2, col := 1 },
          buffer := [120, 10, 32, 32, 121, 121, 10, 122, 122, 10, 119],
          lines := [{ start := 0, end_ := 1 }, { start := 2, end_ := 6 },
                    { start := 7, end_ := 9 }, { start := 10, end_ := 11 }],
          selection := { start := 5, end_ := 8, exists_ := true } }).c.row = 2
    ∧ editor_update_enter
        { c := { pos := 8, row := 2, col := 1 },
          buffer := [120, 10, 32, 32, 121, 121, 10, 122, 122, 10, 119],
          lines := [{ start := 0, end_ := 1 }, { start := 2, end_ := 6 },
                    { start := 7, end_ := 9 }, { start := 10, end_ := 11 }],
          selection := { start := 5, end_ := 8, exists_ := true } } [0]
      = { c := { pos := 6, row := 2, col := 1 },
          buffer := [120, 10, 32, 32, 121, 10, 122, 10, 119],
          lines := [{ start := 0, end_ := 1 }, { start := 2, end_ := 5 },
                    { start := 6, end_ := 7 }, { start := 8, end_ := 9 }],
          selection := { start := 0, end_ := 0, exists_ := false } }
    ∧ Consistent
        { c := { pos := 5, row := 1, col := 2 }, buffer := [97, 98, 10, 99, 100],
          lines := [{ start := 0, end_ := 2 }, { start := 3, end_ := 5 }],
          selection := { start := 0, end_ := 5, exists_ := true } }
    ∧ (editor_selection_delete
        { c := { pos := 5, row := 1, col := 2 }, buffer := [97, 98, 10, 99, 100],
          lines := [{ start := 0, end_ := 2 }, { start := 3, end_ := 5 }],
          selection := { start := 0, end_ := 5, exists_ := true } }).c.row = 1
    ∧ (editor_selection_delete
        { c := { pos := 5, row := 1, col := 2 }, buffer := [97, 98, 10, 99, 100],
          lines := [{ start := 0, end_ := 2 }, { start := 3, end_ := 5 }],
          selection := { start := 0, end_ := 5, exists_ := true } }).lines.length = 1 :=
  ⟨⟨by decide, by decide, by decide, by decide, by decide⟩, by decide, by decide, by decide,
   ⟨by decide, by decide, by decide, by decide, by decide⟩, by decide, by decide⟩

end Bingchillin
